import Mathlib

/-!
Verification of the hand-rolled GTFS-RT protobuf decoder of this repository
(`src/worker.js`, together with the duplicated variant whose
`parseVehiclePosition` and `skip` differ).

Modelling conventions, chosen to follow the JavaScript source exactly:

* JavaScript numbers are modelled as exact integers (`Int`), with an explicit
  IEEE-754 rounding step (`roundDouble`) at the single place where the source
  combines two 32-bit halves into one double (`varint`'s return expression);
  every other numeric operation of the decoder is exact on doubles.
* Byte buffers are `List Nat`; the `PBReader` constructor reduces every
  element mod 256 (`Uint8Array` element semantics).
* Reading a `Uint8Array` at an out-of-range index yields `undefined`; the
  source immediately coerces that value through `& 0x7f` and `& 0x80`,
  which both give `0`, so `byteOf` returns `0` there.
* The cursor `p` is an `Int`: the source can move it below zero through a
  length-delimited read whose decoded length is negative.
* Decoded strings are kept as their raw byte lists (the `TextDecoder`
  application is a bijective renaming irrelevant to every claim), and
  float32/float64 fields are kept as their raw little-endian byte lists.
* A thrown JS `Error` is `Except.error (Err.msg s)` with `s` the message.
* The recursive parsers are made total with an explicit step budget ("fuel");
  running out of fuel is the separate error `Err.fuel`, which the modelled
  entity-isolation boundary never absorbs, so fuel is an artifact of the
  embedding and not an observable of the program.
-/

namespace GeoTransport

/-- Error raised by a decoding step: a thrown JS `Error` carrying its message,
or exhaustion of the embedding's step budget. -/
inductive Err where
  | msg (s : String)
  | fuel
deriving DecidableEq, Repr

instance {ε α : Type} [DecidableEq ε] [DecidableEq α] : DecidableEq (Except ε α)
  | .ok a, .ok b =>
    if h : a = b then .isTrue (by rw [h]) else .isFalse (by simp [h])
  | .ok _, .error _ => .isFalse (by simp)
  | .error _, .ok _ => .isFalse (by simp)
  | .error e, .error e' =>
    if h : e = e' then .isTrue (by rw [h]) else .isFalse (by simp [h])

/-- Number of halvings needed to bring `m` at or below `2 ^ 53 - 1`'s range;
fuel-bounded so that it evaluates by kernel reduction. -/
def halvings : Nat → Nat → Nat
  | 0, _ => 0
  | k + 1, m => if m < 2 ^ 53 then 0 else halvings k (m / 2) + 1

/-- Round a nonnegative integer to the nearest IEEE-754 binary64 value
(round to nearest, ties to even), for magnitudes below `2 ^ 64`: values up to
`2 ^ 53` are exact, larger ones are rounded to a multiple of `2 ^ e` keeping a
53-bit significand. -/
def roundNat53 (n : Nat) : Nat :=
  if n ≤ 2 ^ 53 then n
  else
    let e := halvings 64 n
    let q := n / 2 ^ e
    let r := n % 2 ^ e
    let h := 2 ^ (e - 1)
    (if h < r then q + 1 else if r < h then q else if q % 2 = 0 then q else q + 1) * 2 ^ e

/-- Round an integer to the nearest IEEE-754 binary64 value (rounding is
symmetric around zero). -/
def roundDouble (x : Int) : Int :=
  if 0 ≤ x then (roundNat53 x.toNat : Int) else -(roundNat53 (-x).toNat : Int)

/-- The unsigned 32-bit pattern `n`, reinterpreted as a signed (two's
complement) 32-bit integer, as JS does when a `|=`-accumulated variable is
used in arithmetic. -/
def int32OfPattern (n : Nat) : Int :=
  if n % 2 ^ 32 < 2 ^ 31 then (n % 2 ^ 32 : Int) else (n % 2 ^ 32 : Int) - 2 ^ 32

/-- JS `ToUint32` on an integral double. -/
def toUint32 (v : Int) : Nat := (v % 2 ^ 32).toNat

/-- ECMAScript `%TypedArray%.prototype.slice (start, stop)`: negative indices
count from the end, everything is clamped to the buffer. -/
def jsSlice (l : List Nat) (start stop : Int) : List Nat :=
  let n : Int := l.length
  let k := if start < 0 then max (n + start) 0 else min start n
  let fin := if stop < 0 then max (n + stop) 0 else min stop n
  let cnt := max (fin - k) 0
  (l.drop k.toNat).take cnt.toNat

/-- State of the `PBReader` class: the owned flat byte copy `b` and the
cursor `p`.  The source field `end` is always `b.length` (set in the
constructor and never reassigned), so it is not carried separately. -/
structure PBReader where
  b : List Nat
  p : Int
deriving DecidableEq, Repr

/-- The `PBReader` constructor: take an owned flat copy of the input bytes
(`Uint8Array` reduces every element mod 256) and start the cursor at 0. -/
def mkReader (l : List Nat) : PBReader :=
  { b := l.map (· % 256), p := 0 }

/-- The reader's `end` field. -/
def PBReader.endPos (r : PBReader) : Int := r.b.length

/-- Getter `done`: `p >= end`. -/
def PBReader.done (r : PBReader) : Bool := r.endPos ≤ r.p

/-- Element access `this.b[i]`: an in-range byte, and `0` for an out-of-range
index (JS yields `undefined`, which the callers' `& 0x7f` / `& 0x80`
immediately coerce to `0`). -/
def byteOf (l : List Nat) (i : Int) : Nat :=
  if i < 0 then 0 else l.getD i.toNat 0

/-- One accumulation step of `varint()`'s loop body: how byte `b` at shift
`s` is merged into the two 32-bit accumulators (the source's three-way branch
on `s`).  `lo` and `hi` hold the unsigned 32-bit patterns of the two JS
variables; JS `x << s` on an int32 yields the pattern `(x <<< s) % 2 ^ 32`
(the shift counts reached here are 0..31, so the JS 5-bit shift-count mask
never acts). -/
def varintAccum (lo hi s b : Nat) : Nat × Nat :=
  (if s < 32 then lo ||| ((b &&& 0x7f) <<< s) % 2 ^ 32 else lo,
   if s < 28 then hi
   else if s < 32 then hi ||| ((b &&& 0x7f) >>> (32 - s))
   else hi ||| ((b &&& 0x7f) <<< (s - 32)) % 2 ^ 32)

/-- The `for` loop of `varint()` over at most 10 input bytes (`i` counts the
remaining iterations; falling out after 10 iterations returns the
accumulators as they stand). -/
def varintLoop : Nat → PBReader → Nat → Nat → Nat → Except Err (Nat × Nat × PBReader)
  | 0, r, lo, hi, _ => .ok (lo, hi, r)
  | i + 1, r, lo, hi, s =>
    if r.endPos ≤ r.p then
      .error (.msg ("varint: unexpected EOF at byte " ++ toString r.p))
    else
      let b := byteOf r.b r.p
      let r' : PBReader := { r with p := r.p + 1 }
      let a := varintAccum lo hi s b
      if b &&& 0x80 = 0 then .ok (a.1, a.2, r')
      else varintLoop i r' a.1 a.2 (s + 7)

/-- `varint()`: run the loop, then return `(lo >>> 0) + hi * 4294967296`;
`hi` participates as a signed int32 and the addition is one double-precision
floating-point operation, hence the rounding. -/
def PBReader.varint (r : PBReader) : Except Err (Int × PBReader) :=
  (varintLoop 10 r 0 0 0).map fun x =>
    (roundDouble ((x.1 : Int) + int32OfPattern x.2.1 * 4294967296), x.2.2)

/-- `sint32()`: read a full varint, reinterpret its low 32 bits as a signed
int32 (`| 0`). -/
def PBReader.sint32 (r : PBReader) : Except Err (Int × PBReader) :=
  r.varint.map fun x => (int32OfPattern (toUint32 x.1), x.2)

/-- `float()`: 4-byte bounds check, then a little-endian `getFloat32`.  The
numeric value is kept as the raw 4 bytes; a negative offset makes `DataView`
throw a `RangeError`. -/
def PBReader.float (r : PBReader) : Except Err (List Nat × PBReader) :=
  if r.endPos < r.p + 4 then .error (.msg ("float: EOF at byte " ++ toString r.p))
  else if r.p < 0 then .error (.msg "RangeError: DataView offset out of bounds")
  else .ok ((r.b.drop r.p.toNat).take 4, { r with p := r.p + 4 })

/-- `double()`: 8-byte bounds check, then a little-endian `getFloat64`, kept
as the raw 8 bytes. -/
def PBReader.double (r : PBReader) : Except Err (List Nat × PBReader) :=
  if r.endPos < r.p + 8 then .error (.msg ("double: EOF at byte " ++ toString r.p))
  else if r.p < 0 then .error (.msg "RangeError: DataView offset out of bounds")
  else .ok ((r.b.drop r.p.toNat).take 8, { r with p := r.p + 8 })

/-- `bytes()`: read a varint length, check `p + len > end`, then return an
owned copy of `slice (p, p + len)` and advance the cursor by `len`. -/
def PBReader.bytes (r : PBReader) : Except Err (List Nat × PBReader) := do
  let (len, r₁) ← r.varint
  if r₁.endPos < r₁.p + len then
    .error (.msg ("bytes: need " ++ toString len ++ " but only " ++
      toString (r₁.endPos - r₁.p) ++ " left at byte " ++ toString r₁.p))
  else
    .ok (jsSlice r₁.b r₁.p (r₁.p + len), { r₁ with p := r₁.p + len })

/-- `str()`: `bytes()` fed to a `TextDecoder`; the string is kept as its raw
byte list. -/
def PBReader.str (r : PBReader) : Except Err (List Nat × PBReader) := r.bytes

/-- `sub()`: a fresh `PBReader` over the result of `bytes()`. -/
def PBReader.sub (r : PBReader) : Except Err (PBReader × PBReader) :=
  r.bytes.map fun x => (mkReader x.1, x.2)

/-- `tag()`: one varint split into field number (`t >>> 3`, which applies
`ToUint32` first) and wire type (`t & 7`). -/
def PBReader.tag (r : PBReader) : Except Err ((Nat × Nat) × PBReader) :=
  r.varint.map fun x => ((toUint32 x.1 / 8, toUint32 x.1 % 8), x.2)

/-- `skip(wire)` of `src/worker.js`: wire 0 discards a varint, wire 1 and
wire 5 are bounds-checked fixed-width skips, wire 2 discards a
length-delimited field, anything else throws. -/
def PBReader.skip (r : PBReader) (wire : Nat) : Except Err PBReader :=
  if wire = 0 then r.varint.map fun x => x.2
  else if wire = 1 then
    if r.endPos < r.p + 8 then .error (.msg "skip64 EOF")
    else .ok { r with p := r.p + 8 }
  else if wire = 2 then r.bytes.map fun x => x.2
  else if wire = 5 then
    if r.endPos < r.p + 4 then .error (.msg "skip32 EOF")
    else .ok { r with p := r.p + 4 }
  else .error (.msg ("Unknown wire type " ++ toString wire ++ " at byte " ++ toString r.p))

/-- `skip(wire)` of the duplicated decoder variant (`part_005`): identical
except that the fixed-width wire types 1 and 5 advance the cursor without any
bounds check. -/
def PBReader.skipDL (r : PBReader) (wire : Nat) : Except Err PBReader :=
  if wire = 0 then r.varint.map fun x => x.2
  else if wire = 1 then .ok { r with p := r.p + 8 }
  else if wire = 2 then r.bytes.map fun x => x.2
  else if wire = 5 then .ok { r with p := r.p + 4 }
  else .error (.msg ("unknown wire " ++ toString wire ++ " at byte " ++ toString r.p))

/-- JS nullish coalescing `x ?? y` on an optional decoded value: a present
value (even `0`, `""` or `false`) wins, `undefined` falls back. -/
def nullish {α : Type} (v fallback : Option α) : Option α :=
  match v with
  | some a => some a
  | none => fallback

/-- Helper `readIf(r, w, expected, fn)`: run the typed reader when the wire
type matches, otherwise skip the field and yield `undefined`. -/
def readIf {α : Type} (r : PBReader) (w expected : Nat)
    (fn : PBReader → Except Err (α × PBReader)) : Except Err (Option α × PBReader) :=
  if w = expected then (fn r).map fun x => (some x.1, x.2)
  else (r.skip w).map fun r' => (none, r')

/-- TripDescriptor record; strings are raw byte lists, varint-valued fields
are the JS numbers. -/
structure TripDescriptor where
  tripId : Option (List Nat) := none
  startTime : Option (List Nat) := none
  startDate : Option (List Nat) := none
  scheduleRelationship : Option Int := none
  routeId : Option (List Nat) := none
  directionId : Option Int := none
deriving DecidableEq, Repr

/-- VehicleDescriptor record. -/
structure VehicleDescriptor where
  id : Option (List Nat) := none
  label : Option (List Nat) := none
  licensePlate : Option (List Nat) := none
deriving DecidableEq, Repr

/-- StopTimeEvent record (`delay` and `uncertainty` via `sint32`). -/
structure StopTimeEvent where
  delay : Option Int := none
  time : Option Int := none
  uncertainty : Option Int := none
deriving DecidableEq, Repr

/-- StopTimeUpdate record. -/
structure StopTimeUpdate where
  stopSequence : Option Int := none
  arrival : Option StopTimeEvent := none
  departure : Option StopTimeEvent := none
  stopId : Option (List Nat) := none
  scheduleRelationship : Option Int := none
deriving DecidableEq, Repr

/-- TripUpdate record; `stopTimeUpdate` starts as the empty array. -/
structure TripUpdate where
  trip : Option TripDescriptor := none
  stopTimeUpdate : List StopTimeUpdate := []
  vehicle : Option VehicleDescriptor := none
  timestamp : Option Int := none
  delay : Option Int := none
deriving DecidableEq, Repr

/-- Position record; the four float32 fields and the float64 odometer keep
their raw little-endian bytes. -/
structure Position where
  latitude : Option (List Nat) := none
  longitude : Option (List Nat) := none
  bearing : Option (List Nat) := none
  odometer : Option (List Nat) := none
  speed : Option (List Nat) := none
deriving DecidableEq, Repr

/-- VehiclePosition record, shared by both decoder variants (the variant of
`part_005` only ever populates `trip`, `position`, `timestamp`, `vehicle`). -/
structure VehiclePosition where
  trip : Option TripDescriptor := none
  vehicle : Option VehicleDescriptor := none
  position : Option Position := none
  currentStopSeq : Option Int := none
  stopId : Option (List Nat) := none
  currentStatus : Option Int := none
  timestamp : Option Int := none
  congestionLevel : Option Int := none
  occupancyStatus : Option Int := none
deriving DecidableEq, Repr

/-- FeedEntity record. -/
structure FeedEntity where
  id : Option (List Nat) := none
  isDeleted : Option Bool := none
  tripUpdate : Option TripUpdate := none
  vehicle : Option VehiclePosition := none
deriving DecidableEq, Repr

/-- One slot of the output entity sequence: a decoded entity, or the
`{ _parseError: e.message }` marker produced by the isolation boundary. -/
inductive EntitySlot where
  | ent (e : FeedEntity)
  | parseError (s : String)
deriving DecidableEq, Repr

/-- FeedHeader record. -/
structure FeedHeader where
  gtfsRealtimeVersion : Option (List Nat) := none
  incrementality : Option Int := none
  timestamp : Option Int := none
deriving DecidableEq, Repr

/-- Decoded FeedMessage: the `_entityErrors` counter is attached only when it
is positive, hence the `Option`. -/
structure FeedMessage where
  header : FeedHeader := {}
  entity : List EntitySlot := []
  entityErrors : Option Nat := none
deriving DecidableEq, Repr

/-- Loop of `parseTripDescriptor`; `o` is the record under construction. -/
def parseTripDescriptorLoop : Nat → TripDescriptor → PBReader → Except Err TripDescriptor
  | 0, _, _ => .error .fuel
  | fuel + 1, o, r =>
    if r.done then .ok o
    else do
      let ((f, w), r₁) ← r.tag
      if f = 1 then do
        let (v, r₂) ← readIf r₁ w 2 PBReader.str
        parseTripDescriptorLoop fuel { o with tripId := nullish v o.tripId } r₂
      else if f = 2 then do
        let (v, r₂) ← readIf r₁ w 2 PBReader.str
        parseTripDescriptorLoop fuel { o with startTime := nullish v o.startTime } r₂
      else if f = 3 then do
        let (v, r₂) ← readIf r₁ w 2 PBReader.str
        parseTripDescriptorLoop fuel { o with startDate := nullish v o.startDate } r₂
      else if f = 4 then do
        let (v, r₂) ← readIf r₁ w 0 PBReader.varint
        parseTripDescriptorLoop fuel { o with scheduleRelationship := nullish v o.scheduleRelationship } r₂
      else if f = 5 then do
        let (v, r₂) ← readIf r₁ w 2 PBReader.str
        parseTripDescriptorLoop fuel { o with routeId := nullish v o.routeId } r₂
      else if f = 6 then do
        let (v, r₂) ← readIf r₁ w 0 PBReader.varint
        parseTripDescriptorLoop fuel { o with directionId := nullish v o.directionId } r₂
      else do
        let r₂ ← r₁.skip w
        parseTripDescriptorLoop fuel o r₂

/-- `parseTripDescriptor(r)` with step budget `F`. -/
def parseTripDescriptor (F : Nat) (r : PBReader) : Except Err TripDescriptor :=
  parseTripDescriptorLoop F {} r

/-- Loop of `parseVehicleDescriptor`. -/
def parseVehicleDescriptorLoop : Nat → VehicleDescriptor → PBReader → Except Err VehicleDescriptor
  | 0, _, _ => .error .fuel
  | fuel + 1, o, r =>
    if r.done then .ok o
    else do
      let ((f, w), r₁) ← r.tag
      if f = 1 then do
        let (v, r₂) ← readIf r₁ w 2 PBReader.str
        parseVehicleDescriptorLoop fuel { o with id := nullish v o.id } r₂
      else if f = 2 then do
        let (v, r₂) ← readIf r₁ w 2 PBReader.str
        parseVehicleDescriptorLoop fuel { o with label := nullish v o.label } r₂
      else if f = 3 then do
        let (v, r₂) ← readIf r₁ w 2 PBReader.str
        parseVehicleDescriptorLoop fuel { o with licensePlate := nullish v o.licensePlate } r₂
      else do
        let r₂ ← r₁.skip w
        parseVehicleDescriptorLoop fuel o r₂

/-- `parseVehicleDescriptor(r)` with step budget `F`. -/
def parseVehicleDescriptor (F : Nat) (r : PBReader) : Except Err VehicleDescriptor :=
  parseVehicleDescriptorLoop F {} r

/-- Loop of `parseStopTimeEvent`. -/
def parseStopTimeEventLoop : Nat → StopTimeEvent → PBReader → Except Err StopTimeEvent
  | 0, _, _ => .error .fuel
  | fuel + 1, o, r =>
    if r.done then .ok o
    else do
      let ((f, w), r₁) ← r.tag
      if f = 1 then do
        let (v, r₂) ← readIf r₁ w 0 PBReader.sint32
        parseStopTimeEventLoop fuel { o with delay := nullish v o.delay } r₂
      else if f = 2 then do
        let (v, r₂) ← readIf r₁ w 0 PBReader.varint
        parseStopTimeEventLoop fuel { o with time := nullish v o.time } r₂
      else if f = 3 then do
        let (v, r₂) ← readIf r₁ w 0 PBReader.sint32
        parseStopTimeEventLoop fuel { o with uncertainty := nullish v o.uncertainty } r₂
      else do
        let r₂ ← r₁.skip w
        parseStopTimeEventLoop fuel o r₂

/-- `parseStopTimeEvent(r)` with step budget `F`. -/
def parseStopTimeEvent (F : Nat) (r : PBReader) : Except Err StopTimeEvent :=
  parseStopTimeEventLoop F {} r

/-- Loop of `parseStopTimeUpdate`; nested message fields follow the source's
`() => parseX(r.sub())` shape, with budget `F` for the nested parser. -/
def parseStopTimeUpdateLoop (F : Nat) : Nat → StopTimeUpdate → PBReader → Except Err StopTimeUpdate
  | 0, _, _ => .error .fuel
  | fuel + 1, o, r =>
    if r.done then .ok o
    else do
      let ((f, w), r₁) ← r.tag
      if f = 1 then do
        let (v, r₂) ← readIf r₁ w 0 PBReader.varint
        parseStopTimeUpdateLoop F fuel { o with stopSequence := nullish v o.stopSequence } r₂
      else if f = 2 then do
        let (v, r₂) ← readIf r₁ w 2 (fun rr => do
          let (sr, rr') ← rr.sub
          let s ← parseStopTimeEvent F sr
          pure (s, rr'))
        parseStopTimeUpdateLoop F fuel { o with arrival := nullish v o.arrival } r₂
      else if f = 3 then do
        let (v, r₂) ← readIf r₁ w 2 (fun rr => do
          let (sr, rr') ← rr.sub
          let s ← parseStopTimeEvent F sr
          pure (s, rr'))
        parseStopTimeUpdateLoop F fuel { o with departure := nullish v o.departure } r₂
      else if f = 4 then do
        let (v, r₂) ← readIf r₁ w 2 PBReader.str
        parseStopTimeUpdateLoop F fuel { o with stopId := nullish v o.stopId } r₂
      else if f = 5 then do
        let (v, r₂) ← readIf r₁ w 0 PBReader.varint
        parseStopTimeUpdateLoop F fuel { o with scheduleRelationship := nullish v o.scheduleRelationship } r₂
      else do
        let r₂ ← r₁.skip w
        parseStopTimeUpdateLoop F fuel o r₂

/-- `parseStopTimeUpdate(r)` with step budget `F`. -/
def parseStopTimeUpdate (F : Nat) (r : PBReader) : Except Err StopTimeUpdate :=
  parseStopTimeUpdateLoop F F {} r

/-- Loop of `parseTripUpdate`: field 2 appends to `stopTimeUpdate` when the
wire type matched (`if (s) push(s)` — a decoded record object is always
truthy), every other field is a last-write-wins scalar or sub-message. -/
def parseTripUpdateLoop (F : Nat) : Nat → TripUpdate → PBReader → Except Err TripUpdate
  | 0, _, _ => .error .fuel
  | fuel + 1, o, r =>
    if r.done then .ok o
    else do
      let ((f, w), r₁) ← r.tag
      if f = 1 then do
        let (v, r₂) ← readIf r₁ w 2 (fun rr => do
          let (sr, rr') ← rr.sub
          let s ← parseTripDescriptor F sr
          pure (s, rr'))
        parseTripUpdateLoop F fuel { o with trip := nullish v o.trip } r₂
      else if f = 2 then do
        let (v, r₂) ← readIf r₁ w 2 (fun rr => do
          let (sr, rr') ← rr.sub
          let s ← parseStopTimeUpdate F sr
          pure (s, rr'))
        match v with
        | some s => parseTripUpdateLoop F fuel { o with stopTimeUpdate := o.stopTimeUpdate ++ [s] } r₂
        | none => parseTripUpdateLoop F fuel o r₂
      else if f = 3 then do
        let (v, r₂) ← readIf r₁ w 2 (fun rr => do
          let (sr, rr') ← rr.sub
          let s ← parseVehicleDescriptor F sr
          pure (s, rr'))
        parseTripUpdateLoop F fuel { o with vehicle := nullish v o.vehicle } r₂
      else if f = 4 then do
        let (v, r₂) ← readIf r₁ w 0 PBReader.varint
        parseTripUpdateLoop F fuel { o with timestamp := nullish v o.timestamp } r₂
      else if f = 5 then do
        let (v, r₂) ← readIf r₁ w 0 PBReader.sint32
        parseTripUpdateLoop F fuel { o with delay := nullish v o.delay } r₂
      else do
        let r₂ ← r₁.skip w
        parseTripUpdateLoop F fuel o r₂

/-- `parseTripUpdate(r)` with step budget `F`. -/
def parseTripUpdate (F : Nat) (r : PBReader) : Except Err TripUpdate :=
  parseTripUpdateLoop F F { stopTimeUpdate := [] } r

/-- Loop of `parsePosition`: fields 1, 2, 3, 5 are float32 (wire 5), field 4
is float64 (wire 1). -/
def parsePositionLoop : Nat → Position → PBReader → Except Err Position
  | 0, _, _ => .error .fuel
  | fuel + 1, o, r =>
    if r.done then .ok o
    else do
      let ((f, w), r₁) ← r.tag
      if f = 1 then do
        let (v, r₂) ← readIf r₁ w 5 PBReader.float
        parsePositionLoop fuel { o with latitude := nullish v o.latitude } r₂
      else if f = 2 then do
        let (v, r₂) ← readIf r₁ w 5 PBReader.float
        parsePositionLoop fuel { o with longitude := nullish v o.longitude } r₂
      else if f = 3 then do
        let (v, r₂) ← readIf r₁ w 5 PBReader.float
        parsePositionLoop fuel { o with bearing := nullish v o.bearing } r₂
      else if f = 4 then do
        let (v, r₂) ← readIf r₁ w 1 PBReader.double
        parsePositionLoop fuel { o with odometer := nullish v o.odometer } r₂
      else if f = 5 then do
        let (v, r₂) ← readIf r₁ w 5 PBReader.float
        parsePositionLoop fuel { o with speed := nullish v o.speed } r₂
      else do
        let r₂ ← r₁.skip w
        parsePositionLoop fuel o r₂

/-- `parsePosition(r)` with step budget `F`. -/
def parsePosition (F : Nat) (r : PBReader) : Except Err Position :=
  parsePositionLoop F {} r

/-- Loop of `parseVehiclePosition` of `src/worker.js`, which follows the
published specification numbering (trip=1, vehicle=2, position=3,
currentStopSequence=4, stopId=5, currentStatus=6, timestamp=7,
congestionLevel=8, occupancyStatus=9). -/
def parseVehiclePositionLoop (F : Nat) : Nat → VehiclePosition → PBReader → Except Err VehiclePosition
  | 0, _, _ => .error .fuel
  | fuel + 1, o, r =>
    if r.done then .ok o
    else do
      let ((f, w), r₁) ← r.tag
      if f = 1 then do
        let (v, r₂) ← readIf r₁ w 2 (fun rr => do
          let (sr, rr') ← rr.sub
          let s ← parseTripDescriptor F sr
          pure (s, rr'))
        parseVehiclePositionLoop F fuel { o with trip := nullish v o.trip } r₂
      else if f = 2 then do
        let (v, r₂) ← readIf r₁ w 2 (fun rr => do
          let (sr, rr') ← rr.sub
          let s ← parseVehicleDescriptor F sr
          pure (s, rr'))
        parseVehiclePositionLoop F fuel { o with vehicle := nullish v o.vehicle } r₂
      else if f = 3 then do
        let (v, r₂) ← readIf r₁ w 2 (fun rr => do
          let (sr, rr') ← rr.sub
          let s ← parsePosition F sr
          pure (s, rr'))
        parseVehiclePositionLoop F fuel { o with position := nullish v o.position } r₂
      else if f = 4 then do
        let (v, r₂) ← readIf r₁ w 0 PBReader.varint
        parseVehiclePositionLoop F fuel { o with currentStopSeq := nullish v o.currentStopSeq } r₂
      else if f = 5 then do
        let (v, r₂) ← readIf r₁ w 2 PBReader.str
        parseVehiclePositionLoop F fuel { o with stopId := nullish v o.stopId } r₂
      else if f = 6 then do
        let (v, r₂) ← readIf r₁ w 0 PBReader.varint
        parseVehiclePositionLoop F fuel { o with currentStatus := nullish v o.currentStatus } r₂
      else if f = 7 then do
        let (v, r₂) ← readIf r₁ w 0 PBReader.varint
        parseVehiclePositionLoop F fuel { o with timestamp := nullish v o.timestamp } r₂
      else if f = 8 then do
        let (v, r₂) ← readIf r₁ w 0 PBReader.varint
        parseVehiclePositionLoop F fuel { o with congestionLevel := nullish v o.congestionLevel } r₂
      else if f = 9 then do
        let (v, r₂) ← readIf r₁ w 0 PBReader.varint
        parseVehiclePositionLoop F fuel { o with occupancyStatus := nullish v o.occupancyStatus } r₂
      else do
        let r₂ ← r₁.skip w
        parseVehiclePositionLoop F fuel o r₂

/-- `parseVehiclePosition(r)` of `src/worker.js` with step budget `F`. -/
def parseVehiclePosition (F : Nat) (r : PBReader) : Except Err VehiclePosition :=
  parseVehiclePositionLoop F F {} r

/-- Loop of `parseVehiclePosition` of the duplicated variant (`part_005`),
which follows the empirically observed vendor numbering: trip=1, position=2,
timestamp=5, vehicle=8, everything else skipped. -/
def parseVehiclePositionDLLoop (F : Nat) : Nat → VehiclePosition → PBReader → Except Err VehiclePosition
  | 0, _, _ => .error .fuel
  | fuel + 1, o, r =>
    if r.done then .ok o
    else do
      let ((f, w), r₁) ← r.tag
      if f = 1 then do
        let (v, r₂) ← readIf r₁ w 2 (fun rr => do
          let (sr, rr') ← rr.sub
          let s ← parseTripDescriptor F sr
          pure (s, rr'))
        parseVehiclePositionDLLoop F fuel { o with trip := nullish v o.trip } r₂
      else if f = 2 then do
        let (v, r₂) ← readIf r₁ w 2 (fun rr => do
          let (sr, rr') ← rr.sub
          let s ← parsePosition F sr
          pure (s, rr'))
        parseVehiclePositionDLLoop F fuel { o with position := nullish v o.position } r₂
      else if f = 5 then do
        let (v, r₂) ← readIf r₁ w 0 PBReader.varint
        parseVehiclePositionDLLoop F fuel { o with timestamp := nullish v o.timestamp } r₂
      else if f = 8 then do
        let (v, r₂) ← readIf r₁ w 2 (fun rr => do
          let (sr, rr') ← rr.sub
          let s ← parseVehicleDescriptor F sr
          pure (s, rr'))
        parseVehiclePositionDLLoop F fuel { o with vehicle := nullish v o.vehicle } r₂
      else do
        let r₂ ← r₁.skip w
        parseVehiclePositionDLLoop F fuel o r₂

/-- The `part_005` variant's `parseVehiclePosition(r)` with step budget `F`. -/
def parseVehiclePositionDL (F : Nat) (r : PBReader) : Except Err VehiclePosition :=
  parseVehiclePositionDLLoop F F {} r

/-- Loop of `parseFeedEntity`; field 2 coerces the varint with `!!`. -/
def parseFeedEntityLoop (F : Nat) : Nat → FeedEntity → PBReader → Except Err FeedEntity
  | 0, _, _ => .error .fuel
  | fuel + 1, o, r =>
    if r.done then .ok o
    else do
      let ((f, w), r₁) ← r.tag
      if f = 1 then do
        let (v, r₂) ← readIf r₁ w 2 PBReader.str
        parseFeedEntityLoop F fuel { o with id := nullish v o.id } r₂
      else if f = 2 then do
        let (v, r₂) ← readIf r₁ w 0 (fun rr =>
          rr.varint.map fun x => (decide (x.1 ≠ 0), x.2))
        parseFeedEntityLoop F fuel { o with isDeleted := nullish v o.isDeleted } r₂
      else if f = 3 then do
        let (v, r₂) ← readIf r₁ w 2 (fun rr => do
          let (sr, rr') ← rr.sub
          let s ← parseTripUpdate F sr
          pure (s, rr'))
        parseFeedEntityLoop F fuel { o with tripUpdate := nullish v o.tripUpdate } r₂
      else if f = 4 then do
        let (v, r₂) ← readIf r₁ w 2 (fun rr => do
          let (sr, rr') ← rr.sub
          let s ← parseVehiclePosition F sr
          pure (s, rr'))
        parseFeedEntityLoop F fuel { o with vehicle := nullish v o.vehicle } r₂
      else do
        let r₂ ← r₁.skip w
        parseFeedEntityLoop F fuel o r₂

/-- `parseFeedEntity(r)` with step budget `F`. -/
def parseFeedEntity (F : Nat) (r : PBReader) : Except Err FeedEntity :=
  parseFeedEntityLoop F F {} r

/-- The inline header loop of `parseFeedMessage` (fields of FeedHeader,
merging into the header object built so far). -/
def parseFeedHeaderLoop : Nat → FeedHeader → PBReader → Except Err FeedHeader
  | 0, _, _ => .error .fuel
  | fuel + 1, o, hr =>
    if hr.done then .ok o
    else do
      let ((hf, hw), hr₁) ← hr.tag
      if hf = 1 then do
        let (v, hr₂) ← readIf hr₁ hw 2 PBReader.str
        parseFeedHeaderLoop fuel { o with gtfsRealtimeVersion := nullish v o.gtfsRealtimeVersion } hr₂
      else if hf = 2 then do
        let (v, hr₂) ← readIf hr₁ hw 0 PBReader.varint
        parseFeedHeaderLoop fuel { o with incrementality := nullish v o.incrementality } hr₂
      else if hf = 3 then do
        let (v, hr₂) ← readIf hr₁ hw 0 PBReader.varint
        parseFeedHeaderLoop fuel { o with timestamp := nullish v o.timestamp } hr₂
      else do
        let hr₂ ← hr₁.skip hw
        parseFeedHeaderLoop fuel o hr₂

/-- The top-level loop of `parseFeedMessage`: state is the header built so
far, the entity slots pushed so far, and the `entityErrors` counter.  The
entity branch extracts the entity's bytes outside the recovery boundary, then
parses them inside it: a thrown message becomes a `parseError` slot and bumps
the counter, while the artificial fuel error propagates. -/
def feedLoop (F : Nat) : Nat → FeedHeader → List EntitySlot → Nat → PBReader →
    Except Err (FeedHeader × List EntitySlot × Nat)
  | 0, _, _, _, _ => .error .fuel
  | fuel + 1, h, acc, cnt, r =>
    if r.done then .ok (h, acc, cnt)
    else do
      let ((f, w), r₁) ← r.tag
      if f = 1 ∧ w = 2 then do
        let (hr, r₂) ← r₁.sub
        let h' ← parseFeedHeaderLoop F h hr
        feedLoop F fuel h' acc cnt r₂
      else if f = 2 ∧ w = 2 then do
        let (entityBytes, r₂) ← r₁.bytes
        match parseFeedEntity F (mkReader entityBytes) with
        | .ok e => feedLoop F fuel h (acc ++ [.ent e]) cnt r₂
        | .error (.msg m) => feedLoop F fuel h (acc ++ [.parseError m]) (cnt + 1) r₂
        | .error .fuel => .error .fuel
      else do
        let r₂ ← r₁.skip w
        feedLoop F fuel h acc cnt r₂

/-- `parseFeedMessage(buf)` with step budget `F`: run the top-level loop on a
fresh reader, then attach `_entityErrors` only when the counter is
positive. -/
def parseFeedMessage (F : Nat) (buf : List Nat) : Except Err FeedMessage :=
  (feedLoop F F {} [] 0 (mkReader buf)).map fun x =>
    { header := x.1
      entity := x.2.1
      entityErrors := if 0 < x.2.2 then some x.2.2 else none }

/-- Minimal protocol varint encoding of an unsigned integer (the repository
contains no encoder; this is the standard 7-bits-per-byte little-endian
encoding the round-trip property quantifies over), fuel-bounded so that it
evaluates by kernel reduction (10 bytes cover every value below `2 ^ 70`). -/
def encodeVarintAux : Nat → Nat → List Nat
  | 0, n => [n % 128]
  | fuel + 1, n => if n < 128 then [n] else (n % 128 + 128) :: encodeVarintAux fuel (n / 128)

/-- Minimal varint encoding of `n`. -/
def encodeVarint (n : Nat) : List Nat := encodeVarintAux 10 n

/-- The (field number, wire type) pairs `parseTripDescriptor` recognises:
everything else is skipped. -/
def tdKnown (f w : Nat) : Prop :=
  (f = 1 ∧ w = 2) ∨ (f = 2 ∧ w = 2) ∨ (f = 3 ∧ w = 2) ∨
  (f = 4 ∧ w = 0) ∨ (f = 5 ∧ w = 2) ∨ (f = 6 ∧ w = 0)

instance (f w : Nat) : Decidable (tdKnown f w) := by
  unfold tdKnown; infer_instance

/-- Observable of a skip: the resulting reader on success, `none` on any
thrown error. -/
def okReader : Except Err PBReader → Option PBReader
  | .ok r => some r
  | .error _ => none

/-- Observable of a typed read: the resulting reader on success (the decoded
value is discarded, as `skip` discards it), `none` on any thrown error. -/
def okSnd {α : Type} : Except Err (α × PBReader) → Option PBReader
  | .ok x => some x.2
  | .error _ => none

/-- Whether an entity slot is a parse-error marker. -/
def EntitySlot.isErr : EntitySlot → Bool
  | .parseError _ => true
  | .ent _ => false

/-- Number of parse-error markers in an entity sequence. -/
def countErr (es : List EntitySlot) : Nat := (es.filter EntitySlot.isErr).length

/-- The slot `parseFeedMessage` produces for one isolated entity byte range:
the decoded entity, or a marker carrying the thrown diagnostic message.  (The
`Err.fuel` case is unreachable under the theorems' fuel hypotheses.) -/
def decodeSlot (F : Nat) (bs : List Nat) : EntitySlot :=
  match parseFeedEntity F (mkReader bs) with
  | .ok e => .ent e
  | .error (.msg m) => .parseError m
  | .error .fuel => .parseError ""

/-- Loop of `topWalk`: the top-level framing walk of `parseFeedMessage`, with
identical control flow (header sub-ranges parsed the same way, unknown fields
skipped the same way), except that each entity field's isolated byte range is
collected instead of being parsed.  Success of this walk is what the claims
call well-formed top-level entity framing. -/
def topWalkLoop (F : Nat) : Nat → List (List Nat) → PBReader → Except Err (List (List Nat))
  | 0, _, _ => .error .fuel
  | fuel + 1, acc, r =>
    if r.done then .ok acc
    else do
      let ((f, w), r₁) ← r.tag
      if f = 1 ∧ w = 2 then do
        let (hr, r₂) ← r₁.sub
        let _ ← parseFeedHeaderLoop F {} hr
        topWalkLoop F fuel acc r₂
      else if f = 2 ∧ w = 2 then do
        let (entityBytes, r₂) ← r₁.bytes
        topWalkLoop F fuel (acc ++ [entityBytes]) r₂
      else do
        let r₂ ← r₁.skip w
        topWalkLoop F fuel acc r₂

/-- Top-level framing walk of a feed buffer (see `topWalkLoop`). -/
def topWalk (F : Nat) (buf : List Nat) : Except Err (List (List Nat)) :=
  topWalkLoop F F [] (mkReader buf)

/-- C8: the two vehicle-position parsers of the repository use mutually
inconsistent field-number tables and are not equivalent: on the byte sequence
`[0x12, 0x00]` (field 2, wire type 2, empty payload) the `src/worker.js`
parser stores an empty vehicle descriptor while the `part_005` parser stores
an empty position, so the two structured records differ. -/
theorem C8_vehicle_position_variants_diverge :
    parseVehiclePosition 5 (mkReader [0x12, 0x00]) =
      .ok { vehicle := some {} } ∧
    parseVehiclePositionDL 5 (mkReader [0x12, 0x00]) =
      .ok { position := some {} } ∧
    parseVehiclePosition 5 (mkReader [0x12, 0x00]) ≠
      parseVehiclePositionDL 5 (mkReader [0x12, 0x00]) := by
  exact ⟨by decide, by decide, by decide⟩

/-- C3, counterexample: a varint whose first 10 bytes all carry the
continuation bit is NOT rejected — `varint()` falls out of its 10-iteration
loop and silently returns the accumulated value (here 0), leaving the cursor
in the middle of the varint. -/
theorem C3_counterexample :
    PBReader.varint
        (mkReader [0x80, 0x80, 0x80, 0x80, 0x80, 0x80, 0x80, 0x80, 0x80, 0x80, 0x01]) =
      .ok (0, { b := [0x80, 0x80, 0x80, 0x80, 0x80, 0x80, 0x80, 0x80, 0x80, 0x80, 0x01],
                p := 10 }) := by
  decide

/-- C2, counterexample: decoding the varint encoding of `2 ^ 53 + 1` (a
64-bit value, well below `2 ^ 63`) returns `2 ^ 53`, not `2 ^ 53 + 1`: the
low/high halves are exact, but the returned value is the result of one
double-precision addition, which rounds. -/
theorem C2_counterexample :
    encodeVarint (2 ^ 53 + 1) =
      [0x81, 0x80, 0x80, 0x80, 0x80, 0x80, 0x80, 0x10] ∧
    PBReader.varint (mkReader (encodeVarint (2 ^ 53 + 1))) =
      .ok ((2 ^ 53 : Int),
        { b := [0x81, 0x80, 0x80, 0x80, 0x80, 0x80, 0x80, 0x10], p := 8 }) ∧
    (2 ^ 53 : Int) ≠ ((2 ^ 53 + 1 : Nat) : Int) := by
  exact ⟨by decide, by decide, by decide⟩

/-- C9, counterexample: a primitive read that neither advances the cursor nor
raises an error.  The 10-byte varint `80 .. 80 01` decodes (as a signed
64-bit double) to `-2 ^ 63`, so the length check `p + len > end` passes,
`slice` clamps to the empty range, and `bytes()` succeeds while moving the
cursor backwards to `10 - 2 ^ 63 < 0`. -/
theorem C9_counterexample :
    PBReader.bytes
        (mkReader [0x80, 0x80, 0x80, 0x80, 0x80, 0x80, 0x80, 0x80, 0x80, 0x01]) =
      .ok ([], { b := [0x80, 0x80, 0x80, 0x80, 0x80, 0x80, 0x80, 0x80, 0x80, 0x01],
                 p := 10 - 2 ^ 63 }) ∧
    (10 - 2 ^ 63 : Int) < 0 := by
  exact ⟨by decide, by decide⟩

/-- C7, counterexample: `skip` does not always fail when the corresponding
typed read would fail.  First, the duplicated variant's `skip(1)` advances
past the end of an empty buffer without error while `double()` underruns.
Second, even in `src/worker.js`, a reader state with cursor `-1` — reachable
by a single `bytes()` call on the 10-byte buffer below, whose declared length
decodes to `-11` — lets `skip(1)` succeed while `double()` throws a
`RangeError`. -/
theorem C7_counterexample :
    PBReader.skipDL (mkReader []) 1 = .ok { b := [], p := 8 } ∧
    PBReader.double (mkReader []) = .error (.msg "double: EOF at byte 0") ∧
    PBReader.bytes
        (mkReader [0xF5, 0xFF, 0xFF, 0xFF, 0xFF, 0xFF, 0xFF, 0xFF, 0xFF, 0x01]) =
      .ok ([], { b := [0xF5, 0xFF, 0xFF, 0xFF, 0xFF, 0xFF, 0xFF, 0xFF, 0xFF, 0x01],
                 p := -1 }) ∧
    PBReader.skip
        { b := [0xF5, 0xFF, 0xFF, 0xFF, 0xFF, 0xFF, 0xFF, 0xFF, 0xFF, 0x01], p := -1 } 1 =
      .ok { b := [0xF5, 0xFF, 0xFF, 0xFF, 0xFF, 0xFF, 0xFF, 0xFF, 0xFF, 0x01], p := 7 } ∧
    PBReader.double
        { b := [0xF5, 0xFF, 0xFF, 0xFF, 0xFF, 0xFF, 0xFF, 0xFF, 0xFF, 0x01], p := -1 } =
      .error (.msg "RangeError: DataView offset out of bounds") := by
  exact ⟨by decide, by decide, by decide, by decide, by decide⟩

/-! Helper lemmas shared by several claims. -/

@[simp] theorem exc_bind_ok {α β : Type} (a : α) (f : α → Except Err β) :
    (Except.ok a >>= f) = f a := rfl

@[simp] theorem exc_bind_err {α β : Type} (e : Err) (f : α → Except Err β) :
    ((Except.error e : Except Err α) >>= f) = .error e := rfl

@[simp] theorem exc_map_ok {α β : Type} (f : α → β) (a : α) :
    (Except.ok a : Except Err α).map f = .ok (f a) := rfl

@[simp] theorem exc_map_err {α β : Type} (f : α → β) (e : Err) :
    (Except.error e : Except Err α).map f = .error e := rfl

theorem skip_zero_eq (r : PBReader) : r.skip 0 = r.varint.map fun x => x.2 := rfl

theorem skip_one_eq (r : PBReader) :
    r.skip 1 = if r.endPos < r.p + 8 then .error (.msg "skip64 EOF")
               else .ok { r with p := r.p + 8 } := rfl

theorem skip_two_eq (r : PBReader) : r.skip 2 = r.bytes.map fun x => x.2 := rfl

theorem skip_five_eq (r : PBReader) :
    r.skip 5 = if r.endPos < r.p + 4 then .error (.msg "skip32 EOF")
               else .ok { r with p := r.p + 4 } := rfl

theorem varintLoop_eof {r : PBReader} (h : r.endPos ≤ r.p) (i lo hi s : Nat) :
    varintLoop (i + 1) r lo hi s =
      .error (.msg ("varint: unexpected EOF at byte " ++ toString r.p)) := by
  simp [varintLoop, h]

theorem varint_of_done {r : PBReader} (h : r.done = true) :
    r.varint = .error (.msg ("varint: unexpected EOF at byte " ++ toString r.p)) := by
  have h' : r.endPos ≤ r.p := of_decide_eq_true h
  simp [PBReader.varint, varintLoop_eof h']

theorem done_false_of_tag_ok {r r₁ : PBReader} {y : Nat × Nat}
    (h : r.tag = .ok (y, r₁)) : r.done = false := by
  cases hd : r.done with
  | false => rfl
  | true =>
    rw [PBReader.tag, varint_of_done hd] at h
    simp [Except.map] at h

theorem readIf_mismatch {α : Type} (r : PBReader) (w expected : Nat)
    (fn : PBReader → Except Err (α × PBReader)) (h : w ≠ expected) :
    readIf r w expected fn = (r.skip w).map fun r' => (none, r') := by
  simp [readIf, h]

/-- C7, amended: for `src/worker.js` and every reader state with a
nonnegative cursor, `skip(w)` for `w ∈ {0, 1, 2, 5}` succeeds exactly when
the corresponding typed read (`varint`, `double`, `bytes`, `float`) succeeds,
and on success leaves the reader in exactly the state the typed read would
have left it; every other wire type fails with the unknown-wire-type error.
(Without the nonnegativity restriction the claim is false — see the
counterexample — and the duplicated variant's `skip` also drops the bounds
check on wire types 1 and 5.) -/
theorem C7_skip_matches_typed_read (r : PBReader) (hp : 0 ≤ r.p) :
    okReader (r.skip 0) = okSnd r.varint ∧
    okReader (r.skip 1) = okSnd r.double ∧
    okReader (r.skip 2) = okSnd r.bytes ∧
    okReader (r.skip 5) = okSnd r.float ∧
    (∀ w, w ≠ 0 → w ≠ 1 → w ≠ 2 → w ≠ 5 →
      r.skip w =
        .error (.msg ("Unknown wire type " ++ toString w ++ " at byte " ++ toString r.p))) := by
  refine ⟨?_, ?_, ?_, ?_, ?_⟩
  · cases h : r.varint with
    | ok x => simp [PBReader.skip, h, Except.map, okReader, okSnd]
    | error e => simp [PBReader.skip, h, Except.map, okReader, okSnd]
  · by_cases h : r.endPos < r.p + 8
    · simp [PBReader.skip, PBReader.double, h, okReader, okSnd]
    · have hp' : ¬ r.p < 0 := by omega
      simp [PBReader.skip, PBReader.double, h, hp', okReader, okSnd]
  · cases h : r.bytes with
    | ok x => simp [PBReader.skip, h, Except.map, okReader, okSnd]
    | error e => simp [PBReader.skip, h, Except.map, okReader, okSnd]
  · by_cases h : r.endPos < r.p + 4
    · simp [PBReader.skip, PBReader.float, h, okReader, okSnd]
    · have hp' : ¬ r.p < 0 := by omega
      simp [PBReader.skip, PBReader.float, h, hp', okReader, okSnd]
  · intro w h0 h1 h2 h5
    simp [PBReader.skip, h0, h1, h2, h5]

/-- Witness for C7: the amended theorem applied to a concrete two-byte
reader, plus the unknown-wire-type case at wire type 3. -/
theorem C7_witness :
    (okReader ((mkReader [0x96, 0x01]).skip 0) = okSnd (mkReader [0x96, 0x01]).varint ∧
      okReader ((mkReader [0x96, 0x01]).skip 1) = okSnd (mkReader [0x96, 0x01]).double ∧
      (mkReader [0x96, 0x01]).skip 3 =
        .error (.msg ("Unknown wire type " ++ toString 3 ++ " at byte " ++
          toString (mkReader [0x96, 0x01]).p))) := by
  have h := C7_skip_matches_typed_read (mkReader [0x96, 0x01]) (by decide)
  exact ⟨h.1, h.2.1, h.2.2.2.2 3 (by decide) (by decide) (by decide) (by decide)⟩

/-- C4: a field whose (field number, wire type) pair the parser's table does
not accept is skipped according to its wire type and contributes nothing: the
generic `readIf` reduces to a pure skip whenever the wire type mismatches,
and one loop iteration of the trip-descriptor parser over an unknown or
mismatched field leaves the record under construction unchanged and resumes
at exactly the cursor position where `skip` landed (the start of the next
tag), so the rest of the message parses as if the field were absent. -/
theorem C4_unknown_field_skipped :
    (∀ (α : Type) (r : PBReader) (w expected : Nat)
       (fn : PBReader → Except Err (α × PBReader)), w ≠ expected →
       readIf r w expected fn = (r.skip w).map fun r' => (none, r')) ∧
    (∀ (fuel : Nat) (o : TripDescriptor) (r r₁ r₂ : PBReader) (f w : Nat),
       r.tag = .ok ((f, w), r₁) → ¬ tdKnown f w → r₁.skip w = .ok r₂ →
       parseTripDescriptorLoop (fuel + 1) o r = parseTripDescriptorLoop fuel o r₂) := by
  constructor
  · exact fun α r w expected fn h => readIf_mismatch r w expected fn h
  · intro fuel o r r₁ r₂ f w htag hk hskip
    have hd := done_false_of_tag_ok htag
    rw [parseTripDescriptorLoop]
    simp only [hd, Bool.false_eq_true, if_false, htag, exc_bind_ok]
    by_cases h1 : f = 1
    · have hw : w ≠ 2 := fun hw => hk (Or.inl ⟨h1, hw⟩)
      simp [h1, readIf_mismatch _ _ _ _ hw, hskip, Except.map, nullish]
    · by_cases h2 : f = 2
      · have hw : w ≠ 2 := fun hw => hk (Or.inr (Or.inl ⟨h2, hw⟩))
        simp [h1, h2, readIf_mismatch _ _ _ _ hw, hskip, Except.map, nullish]
      · by_cases h3 : f = 3
        · have hw : w ≠ 2 := fun hw => hk (Or.inr (Or.inr (Or.inl ⟨h3, hw⟩)))
          simp [h1, h2, h3, readIf_mismatch _ _ _ _ hw, hskip, Except.map, nullish]
        · by_cases h4 : f = 4
          · have hw : w ≠ 0 := fun hw => hk (Or.inr (Or.inr (Or.inr (Or.inl ⟨h4, hw⟩))))
            simp [h1, h2, h3, h4, readIf_mismatch _ _ _ _ hw, hskip, Except.map, nullish]
          · by_cases h5 : f = 5
            · have hw : w ≠ 2 := fun hw =>
                hk (Or.inr (Or.inr (Or.inr (Or.inr (Or.inl ⟨h5, hw⟩)))))
              simp [h1, h2, h3, h4, h5, readIf_mismatch _ _ _ _ hw, hskip, Except.map, nullish]
            · by_cases h6 : f = 6
              · have hw : w ≠ 0 := fun hw =>
                  hk (Or.inr (Or.inr (Or.inr (Or.inr (Or.inr ⟨h6, hw⟩)))))
                simp [h1, h2, h3, h4, h5, h6, readIf_mismatch _ _ _ _ hw, hskip,
                  Except.map, nullish]
              · simp [h1, h2, h3, h4, h5, h6, hskip, Except.bind]

/-- Witness for C4: skipping the unrecognised field 9 (wire type 0, one
varint byte) in front of a trip-id field parses as if it were absent. -/
theorem C4_witness :
    readIf (mkReader [0x05]) 5 2 PBReader.str =
      ((mkReader [0x05]).skip 5).map (fun r' => (none, r')) ∧
    parseTripDescriptorLoop 3 {} (mkReader [0x48, 0x07, 0x0A, 0x01, 0x61]) =
      parseTripDescriptorLoop 2 {}
        { b := [0x48, 0x07, 0x0A, 0x01, 0x61], p := 2 } := by
  constructor
  · exact C4_unknown_field_skipped.1 _ (mkReader [0x05]) 5 2 PBReader.str (by decide)
  · exact C4_unknown_field_skipped.2 2 {} (mkReader [0x48, 0x07, 0x0A, 0x01, 0x61])
      { b := [0x48, 0x07, 0x0A, 0x01, 0x61], p := 1 }
      { b := [0x48, 0x07, 0x0A, 0x01, 0x61], p := 2 } 9 0
      (by decide) (by decide) (by decide)

theorem varintLoop_mono : ∀ (i : Nat) (r : PBReader) (lo hi s : Nat)
    (x : Nat × Nat × PBReader), varintLoop i r lo hi s = .ok x →
    x.2.2.b = r.b ∧ r.p ≤ x.2.2.p := by
  intro i
  induction i with
  | zero =>
    intro r lo hi s x h
    rw [varintLoop] at h
    cases h
    exact ⟨rfl, le_refl _⟩
  | succ i ih =>
    intro r lo hi s x h
    rw [varintLoop] at h
    split at h
    · cases h
    · simp only [] at h
      split at h
      · cases h
        refine ⟨rfl, ?_⟩
        show r.p ≤ r.p + 1
        omega
      · have h3 := ih _ _ _ _ _ h
        refine ⟨h3.1, ?_⟩
        have h2 := h3.2
        simp only at h2
        omega

theorem varintLoop_succ_advance (i : Nat) (r : PBReader) (lo hi s : Nat)
    (x : Nat × Nat × PBReader) (h : varintLoop (i + 1) r lo hi s = .ok x) :
    x.2.2.b = r.b ∧ r.p < x.2.2.p := by
  rw [varintLoop] at h
  split at h
  · cases h
  · simp only [] at h
    split at h
    · cases h
      refine ⟨rfl, ?_⟩
      show r.p < r.p + 1
      omega
    · have h3 := varintLoop_mono _ _ _ _ _ _ h
      refine ⟨h3.1, ?_⟩
      have h2 := h3.2
      simp only at h2
      omega

theorem varint_advance {r r' : PBReader} {v : Int} (h : r.varint = .ok (v, r')) :
    r'.b = r.b ∧ r.p < r'.p := by
  rw [PBReader.varint] at h
  cases hl : varintLoop 10 r 0 0 0 with
  | ok x =>
    rw [hl] at h
    cases h
    exact varintLoop_succ_advance 9 r 0 0 0 x hl
  | error e => rw [hl] at h; cases h

theorem tag_advance {r r' : PBReader} {y : Nat × Nat} (h : r.tag = .ok (y, r')) :
    r'.b = r.b ∧ r.p < r'.p := by
  rw [PBReader.tag] at h
  cases hv : r.varint with
  | ok x =>
    rw [hv] at h
    cases h
    exact varint_advance hv
  | error e => rw [hv] at h; cases h

/-- C9, amended: every primitive read of the reader either advances the
cursor by at least one byte or raises an error — with one exception the
counterexample exhibits: a length-delimited read (`bytes`, or `skip` of wire
type 2) whose declared length decodes to a negative 64-bit value (only
possible for a 10-byte varint carrying bit 63) may move the cursor backwards
without error.  For nonnegative decoded lengths, `bytes` advances strictly
and lands exactly `len` bytes past the length prefix, so on buffers free of
such negative lengths every parser loop consumes at least one byte per
iteration and the decode is bounded by input size. -/
theorem C9_reads_advance_or_fail :
    (∀ (r r' : PBReader) (v : Int), r.varint = .ok (v, r') → r'.b = r.b ∧ r.p < r'.p) ∧
    (∀ (r r' : PBReader) (y : Nat × Nat), r.tag = .ok (y, r') → r'.b = r.b ∧ r.p < r'.p) ∧
    (∀ (r r' : PBReader) (v : List Nat), r.float = .ok (v, r') → r' = { r with p := r.p + 4 }) ∧
    (∀ (r r' : PBReader) (v : List Nat), r.double = .ok (v, r') → r' = { r with p := r.p + 8 }) ∧
    (∀ (r r₁ r' : PBReader) (len : Int) (bs : List Nat),
      r.varint = .ok (len, r₁) → 0 ≤ len → r.bytes = .ok (bs, r') →
      r'.b = r.b ∧ r.p < r'.p ∧ r'.p = r₁.p + len) ∧
    (∀ (r r' : PBReader) (w : Nat), w = 1 ∨ w = 5 → r.skip w = .ok r' → r.p < r'.p) ∧
    (∀ (r r₁ r' : PBReader) (len : Int),
      r.varint = .ok (len, r₁) → 0 ≤ len → r.skip 2 = .ok r' → r.p < r'.p) := by
  have hbytes : ∀ (r r₁ r' : PBReader) (len : Int) (bs : List Nat),
      r.varint = .ok (len, r₁) → 0 ≤ len → r.bytes = .ok (bs, r') →
      r'.b = r.b ∧ r.p < r'.p ∧ r'.p = r₁.p + len := by
    intro r r₁ r' len bs hv hlen hb
    rw [PBReader.bytes, hv] at hb
    simp only [exc_bind_ok] at hb
    split at hb
    · cases hb
    · cases hb
      have h2 := varint_advance hv
      refine ⟨h2.1, ?_, rfl⟩
      have h3 := h2.2
      show r.p < r₁.p + len
      omega
  refine ⟨fun r r' v h => varint_advance h, fun r r' y h => tag_advance h,
    ?_, ?_, hbytes, ?_, ?_⟩
  · intro r r' v h
    rw [PBReader.float] at h
    split at h
    · cases h
    · split at h
      · cases h
      · cases h; rfl
  · intro r r' v h
    rw [PBReader.double] at h
    split at h
    · cases h
    · split at h
      · cases h
      · cases h; rfl
  · intro r r' w hw h
    rcases hw with hw | hw <;> subst hw
    · rw [skip_one_eq] at h
      split at h
      · cases h
      · cases h
        show r.p < r.p + 8
        omega
    · rw [skip_five_eq] at h
      split at h
      · cases h
      · cases h
        show r.p < r.p + 4
        omega
  · intro r r₁ r' len hv hlen h
    rw [skip_two_eq] at h
    cases hb : r.bytes with
    | ok x =>
      rw [hb] at h
      cases h
      exact (hbytes r r₁ _ len x.1 hv hlen (by rw [hb])).2.1
    | error e => rw [hb] at h; cases h

/-- Witness for C9: the amended progress property applied to the concrete
two-byte varint read `[0x96, 0x01]` and to a concrete nonnegative
length-delimited read `[0x01, 0x61]`. -/
theorem C9_witness :
    ({ b := [0x96, 0x01], p := 2 } : PBReader).b = (mkReader [0x96, 0x01]).b ∧
    (mkReader [0x96, 0x01]).p < ({ b := [0x96, 0x01], p := 2 } : PBReader).p ∧
    (mkReader [0x01, 0x61]).p < ({ b := [0x01, 0x61], p := 2 } : PBReader).p := by
  have h1 := C9_reads_advance_or_fail.1 (mkReader [0x96, 0x01])
    { b := [0x96, 0x01], p := 2 } 150 (by decide)
  have h2 := C9_reads_advance_or_fail.2.2.2.2.1 (mkReader [0x01, 0x61])
    { b := [0x01, 0x61], p := 1 } { b := [0x01, 0x61], p := 2 } 1 [0x61]
    (by decide) (by decide) (by decide)
  exact ⟨h1.1, h1.2, h2.2.1⟩

/-- C6: repeated fields append in arrival order and scalar fields follow
last-occurrence-wins.  One loop iteration of the trip-update parser over a
matching scalar field (timestamp, field 4, wire 0) overwrites the slot with
the newly decoded value regardless of its previous contents; one iteration
over a matching repeated field (stop-time update, field 2, wire 2) appends
the decoded record at the end of the accumulated sequence; and the top-level
feed loop appends each decoded entity at the end of the entity sequence. -/
theorem C6_repeated_append_scalar_overwrite :
    (∀ (F fuel : Nat) (o : TripUpdate) (r r₁ r₂ : PBReader) (v : Int),
      r.tag = .ok ((4, 0), r₁) → r₁.varint = .ok (v, r₂) →
      parseTripUpdateLoop F (fuel + 1) o r =
        parseTripUpdateLoop F fuel { o with timestamp := some v } r₂) ∧
    (∀ (F fuel : Nat) (o : TripUpdate) (r r₁ r₂ sr : PBReader) (s : StopTimeUpdate),
      r.tag = .ok ((2, 2), r₁) → r₁.sub = .ok (sr, r₂) →
      parseStopTimeUpdate F sr = .ok s →
      parseTripUpdateLoop F (fuel + 1) o r =
        parseTripUpdateLoop F fuel { o with stopTimeUpdate := o.stopTimeUpdate ++ [s] } r₂) ∧
    (∀ (F fuel : Nat) (h : FeedHeader) (acc : List EntitySlot) (cnt : Nat)
       (r r₁ r₂ : PBReader) (bs : List Nat) (e : FeedEntity),
      r.tag = .ok ((2, 2), r₁) → r₁.bytes = .ok (bs, r₂) →
      parseFeedEntity F (mkReader bs) = .ok e →
      feedLoop F (fuel + 1) h acc cnt r =
        feedLoop F fuel h (acc ++ [.ent e]) cnt r₂) := by
  refine ⟨?_, ?_, ?_⟩
  · intro F fuel o r r₁ r₂ v htag hv
    have hd := done_false_of_tag_ok htag
    rw [parseTripUpdateLoop]
    simp [hd, htag, readIf, hv, nullish]
  · intro F fuel o r r₁ r₂ sr s htag hsub hstu
    have hd := done_false_of_tag_ok htag
    rw [parseTripUpdateLoop]
    simp [hd, htag, readIf, hsub, hstu]
  · intro F fuel h acc cnt r r₁ r₂ bs e htag hb he
    have hd := done_false_of_tag_ok htag
    rw [feedLoop]
    simp [hd, htag, hb, he]

/-- Witness for C6: the scalar-overwrite equation applied to a concrete
reader holding `timestamp = 7`, starting from a record that already holds
`timestamp = 3` — the new value replaces the old one. -/
theorem C6_witness :
    parseTripUpdateLoop 4 3 { timestamp := some 3 } (mkReader [0x20, 0x07]) =
      parseTripUpdateLoop 4 2 { timestamp := some 7 }
        { b := [0x20, 0x07], p := 2 } := by
  exact C6_repeated_append_scalar_overwrite.1 4 2 { timestamp := some 3 }
    (mkReader [0x20, 0x07]) { b := [0x20, 0x07], p := 1 }
    { b := [0x20, 0x07], p := 2 } 7 (by decide) (by decide)

theorem varintLoop_error_iff : ∀ (i : Nat) (r : PBReader) (lo hi s : Nat),
    r.p ≤ r.endPos ∨ 1 ≤ i →
    ((∃ e, varintLoop i r lo hi s = .error e) ↔
      (r.endPos - r.p < i ∧
        ∀ j : Nat, (j : Int) < r.endPos - r.p → byteOf r.b (r.p + j) &&& 128 ≠ 0)) := by
  intro i
  induction i with
  | zero =>
    intro r lo hi s hs
    rw [varintLoop]
    constructor
    · rintro ⟨e, he⟩
      cases he
    · rintro ⟨hlt, _⟩
      rcases hs with hs | hs
      · exact absurd hlt (by simp [PBReader.endPos] at hs ⊢; omega)
      · omega
  | succ i ih =>
    intro r lo hi s _
    rw [varintLoop]
    by_cases he : r.endPos ≤ r.p
    · simp only [he, if_true]
      constructor
      · intro _
        constructor
        · omega
        · intro j hj
          omega
      · intro _
        exact ⟨_, rfl⟩
    · simp only [he, if_false]
      by_cases hb : byteOf r.b r.p &&& 128 = 0
      · simp only [hb, if_true]
        constructor
        · rintro ⟨e, hc⟩
          cases hc
        · rintro ⟨_, hall⟩
          exact absurd (hall 0 (by push_cast; omega)) (by simpa using hb)
      · simp only [hb, if_false]
        have hrec := ih { r with p := r.p + 1 } (varintAccum lo hi s (byteOf r.b r.p)).1
          (varintAccum lo hi s (byteOf r.b r.p)).2 (s + 7)
          (Or.inl (by
            show r.p + 1 ≤ ((r.b.length : Int))
            rw [PBReader.endPos] at he
            omega))
        rw [hrec]
        have hend : ({ r with p := r.p + 1 } : PBReader).endPos = r.endPos := rfl
        have hp1 : ({ r with p := r.p + 1 } : PBReader).p = r.p + 1 := rfl
        have hb1 : ({ r with p := r.p + 1 } : PBReader).b = r.b := rfl
        rw [hend, hp1, hb1]
        constructor
        · rintro ⟨hlt, hall⟩
          refine ⟨by omega, ?_⟩
          intro j hj
          match j with
          | 0 => simpa using hb
          | j' + 1 =>
            have h4 := hall j' (by push_cast at hj ⊢; omega)
            have h5 : r.p + 1 + (j' : Int) = r.p + ((j' + 1 : Nat) : Int) := by
              push_cast
              ring
            rwa [h5] at h4
        · rintro ⟨hlt, hall⟩
          refine ⟨by omega, ?_⟩
          intro j hj
          have h4 := hall (j + 1) (by push_cast at hj ⊢; omega)
          have h5 : r.p + ((j + 1 : Nat) : Int) = r.p + 1 + (j : Int) := by
            push_cast
            ring
          rwa [h5] at h4

theorem varintLoop_all_cont : ∀ (i : Nat) (r : PBReader) (lo hi s : Nat),
    (∀ j : Nat, j < i → byteOf r.b (r.p + j) &&& 128 ≠ 0) →
    (i : Int) ≤ r.endPos - r.p →
    ∃ lo' hi', varintLoop i r lo hi s = .ok (lo', hi', { r with p := r.p + i }) := by
  intro i
  induction i with
  | zero =>
    intro r lo hi s _ _
    exact ⟨lo, hi, by rw [varintLoop]; simp⟩
  | succ i ih =>
    intro r lo hi s hall hlen
    rw [varintLoop]
    have he : ¬ r.endPos ≤ r.p := by push_cast at hlen; omega
    simp only [he, if_false]
    have hb := hall 0 (by omega)
    have hb0 : byteOf r.b r.p &&& 128 ≠ 0 := by
      have h5 : r.p + ((0 : Nat) : Int) = r.p := by push_cast; ring
      rwa [h5] at hb
    simp only [hb0, if_false]
    have hrec := ih { r with p := r.p + 1 } (varintAccum lo hi s (byteOf r.b r.p)).1
      (varintAccum lo hi s (byteOf r.b r.p)).2 (s + 7)
      (fun j hj => by
        have h4 := hall (j + 1) (by omega)
        show byteOf r.b (r.p + 1 + (j : Int)) &&& 128 ≠ 0
        have h5 : r.p + ((j + 1 : Nat) : Int) = r.p + 1 + (j : Int) := by
          push_cast
          ring
        rwa [h5] at h4)
      (by
        show ((i : Nat) : Int) ≤ ((r.b.length : Int)) - (r.p + 1)
        rw [PBReader.endPos] at hlen
        push_cast at hlen ⊢
        omega)
    rcases hrec with ⟨lo', hi', hrec⟩
    refine ⟨lo', hi', ?_⟩
    rw [hrec]
    have hpe : ({ r with p := r.p + 1 } : PBReader).p + (i : Int) = r.p + ((i + 1 : Nat) : Int) := by
      show r.p + 1 + (i : Int) = r.p + ((i + 1 : Nat) : Int)
      push_cast
      ring
    rw [hpe]

/-- C3, amended: `readVarint()` fails (with the buffer-underrun error) if and
only if the reader's slice ends before a terminating byte and fewer than 10
bytes remain — and when at least 10 bytes remain and the first 10 all carry
the continuation bit, it does NOT fail: it silently returns the value
accumulated from those 10 bytes, leaving the cursor 10 bytes in, mid-varint
(contrary to the claim's "never silently returns"). -/
theorem C3_underrun_characterisation (r : PBReader) :
    ((∃ e, r.varint = .error e) ↔
      (r.endPos - r.p < 10 ∧
        ∀ j : Nat, (j : Int) < r.endPos - r.p → byteOf r.b (r.p + j) &&& 128 ≠ 0)) ∧
    ((∀ j : Nat, j < 10 → byteOf r.b (r.p + j) &&& 128 ≠ 0) →
      (10 : Int) ≤ r.endPos - r.p →
      ∃ v, r.varint = .ok (v, { r with p := r.p + 10 })) := by
  constructor
  · have hiff := varintLoop_error_iff 10 r 0 0 0 (Or.inr (by omega))
    push_cast at hiff
    rw [PBReader.varint, ← hiff]
    constructor
    · rintro ⟨e, he⟩
      cases hl : varintLoop 10 r 0 0 0 with
      | ok x => rw [hl, exc_map_ok] at he; cases he
      | error e' => exact ⟨e', rfl⟩
    · rintro ⟨e, he⟩
      exact ⟨e, by rw [he]; rfl⟩
  · intro hall hlen
    rcases varintLoop_all_cont 10 r 0 0 0 hall (by exact_mod_cast hlen) with ⟨lo', hi', hl⟩
    exact ⟨_, by rw [PBReader.varint, hl]; rfl⟩

/-- Witness for C3: a one-byte truncated varint fails with underrun, and ten
continuation bytes followed by more input return successfully with the cursor
at 10. -/
theorem C3_witness :
    (∃ e, (mkReader [0x80]).varint = .error e) ∧
    (∃ v, (mkReader [0x80, 0x80, 0x80, 0x80, 0x80, 0x80, 0x80, 0x80, 0x80, 0x80, 0x01]).varint =
      .ok (v, { b := [0x80, 0x80, 0x80, 0x80, 0x80, 0x80, 0x80, 0x80, 0x80, 0x80, 0x01],
                p := 10 })) := by
  constructor
  · apply (C3_underrun_characterisation (mkReader [0x80])).1.mpr
    refine ⟨by decide, ?_⟩
    intro j hj
    have h1 : (mkReader [0x80]).endPos - (mkReader [0x80]).p = 1 := by decide
    rw [h1] at hj
    have hj0 : j = 0 := by omega
    subst hj0
    decide
  · exact (C3_underrun_characterisation
      (mkReader [0x80, 0x80, 0x80, 0x80, 0x80, 0x80, 0x80, 0x80, 0x80, 0x80, 0x01])).2
      (by decide) (by decide)

theorem jsSlice_of_bounds (l : List Nat) (s len : Int) (hs : 0 ≤ s) (hlen : 0 ≤ len)
    (hb : s + len ≤ (l.length : Int)) :
    jsSlice l s (s + len) = (l.drop s.toNat).take len.toNat := by
  unfold jsSlice
  simp only []
  have h1 : ¬ s < 0 := by omega
  have h2 : ¬ s + len < 0 := by omega
  rw [if_neg h1, if_neg h2]
  rw [min_eq_left (by omega : s ≤ (l.length : Int))]
  rw [min_eq_left hb]
  have h3 : s + len - s = len := by ring
  rw [h3, max_eq_left hlen]

theorem map_mod_of_lt {l : List Nat} (h : ∀ x ∈ l, x < 256) : l.map (· % 256) = l := by
  induction l with
  | nil => rfl
  | cons a t ih =>
    simp only [List.map_cons]
    rw [Nat.mod_eq_of_lt (h a (by simp))]
    rw [ih (fun x hx => h x (by simp [hx]))]

/-- C5: a sub-reader is bounded to exactly the declared byte range.  For any
reader with nonnegative cursor over a byte buffer, a successful `sub()` whose
length prefix decoded to `len ≥ 0` yields a fresh reader whose buffer is
precisely the `len` bytes following the length prefix — the enclosing
buffer's trailing bytes are not part of the sub-reader at all, and since
every read is a function of the sub-reader's own buffer and cursor alone
(recursively derived sub-readers included), no read can observe a byte
outside that range.  Moreover a read needing more bytes than remain in a
reader's own bound fails: `float`, `double` and an overlong `bytes` all
error. -/
theorem C5_subreader_exact_range :
    (∀ (r r₁ r' sr : PBReader) (len : Int),
      0 ≤ r.p → (∀ x ∈ r.b, x < 256) →
      r.varint = .ok (len, r₁) → 0 ≤ len →
      r.sub = .ok (sr, r') →
      sr.p = 0 ∧
      sr.b = (r.b.drop r₁.p.toNat).take len.toNat ∧
      (sr.b.length : Int) = len ∧
      r'.b = r.b ∧ r'.p = r₁.p + len) ∧
    (∀ t : PBReader, t.endPos < t.p + 4 → ∃ e, t.float = .error e) ∧
    (∀ t : PBReader, t.endPos < t.p + 8 → ∃ e, t.double = .error e) ∧
    (∀ (t t₁ : PBReader) (len : Int), t.varint = .ok (len, t₁) →
      t₁.endPos < t₁.p + len → ∃ e, t.bytes = .error e) := by
  refine ⟨?_, ?_, ?_, ?_⟩
  · intro r r₁ r' sr len hp hb hv hlen hs
    have hadv := varint_advance hv
    rw [PBReader.sub] at hs
    cases hby : r.bytes with
    | error e => rw [hby] at hs; cases hs
    | ok x =>
      rw [hby, exc_map_ok] at hs
      cases hs
      rw [PBReader.bytes, hv, exc_bind_ok] at hby
      simp only [] at hby
      split at hby
      · cases hby
      · rename_i hfit
        cases hby
        rw [PBReader.endPos] at hfit
        have hp1 : 0 ≤ r₁.p := by omega
        have hfit' : r₁.p + len ≤ (r₁.b.length : Int) := by omega
        have hsl := jsSlice_of_bounds r₁.b r₁.p len hp1 hlen hfit'
        have hsub : ∀ x ∈ (r₁.b.drop r₁.p.toNat).take len.toNat, x < 256 := by
          intro x hx
          have hx1 : x ∈ r₁.b := List.mem_of_mem_drop (List.mem_of_mem_take hx)
          rw [hadv.1] at hx1
          exact hb x hx1
        have hlength : (((r₁.b.drop r₁.p.toNat).take len.toNat).length : Int) = len := by
          rw [List.length_take, List.length_drop]
          have h6 : len.toNat + r₁.p.toNat ≤ r₁.b.length := by omega
          rw [min_eq_left (by omega)]
          omega
        refine ⟨rfl, ?_, ?_, hadv.1, rfl⟩
        · show (jsSlice r₁.b r₁.p (r₁.p + len)).map (· % 256) =
            (r.b.drop r₁.p.toNat).take len.toNat
          rw [hsl, map_mod_of_lt hsub, hadv.1]
        · show (((jsSlice r₁.b r₁.p (r₁.p + len)).map (· % 256)).length : Int) = len
          rw [hsl, map_mod_of_lt hsub, hlength]
  · intro t h
    rw [PBReader.float, if_pos h]
    exact ⟨_, rfl⟩
  · intro t h
    rw [PBReader.double, if_pos h]
    exact ⟨_, rfl⟩
  · intro t t₁ len hv h
    rw [PBReader.bytes, hv, exc_bind_ok]
    simp only []
    rw [if_pos h]
    exact ⟨_, rfl⟩

/-- Witness for C5: the buffer `[0x02, 0x61, 0x62, 0x63]` declares a 2-byte
sub-message followed by a trailing byte; the sub-reader covers exactly
`[0x61, 0x62]` and never sees the trailing `0x63`, and an 8-byte read on the
empty reader fails. -/
theorem C5_witness :
    (mkReader [0x02, 0x61, 0x62, 0x63]).sub =
      .ok ({ b := [0x61, 0x62], p := 0 }, { b := [0x02, 0x61, 0x62, 0x63], p := 3 }) ∧
    ({ b := [0x61, 0x62], p := 0 } : PBReader).b =
      (((mkReader [0x02, 0x61, 0x62, 0x63]).b.drop 1).take 2) ∧
    (∃ e, PBReader.double { b := [0x61, 0x62], p := 0 } = .error e) := by
  have h := C5_subreader_exact_range.1 (mkReader [0x02, 0x61, 0x62, 0x63])
    { b := [0x02, 0x61, 0x62, 0x63], p := 1 }
    { b := [0x02, 0x61, 0x62, 0x63], p := 3 }
    { b := [0x61, 0x62], p := 0 } 2
    (by decide) (by decide) (by decide) (by decide) (by decide)
  have h2 := C5_subreader_exact_range.2.2.1 { b := [0x61, 0x62], p := 0 } (by decide)
  exact ⟨by decide, h.2.1, h2⟩

theorem and127_eq_mod (x : Nat) : x &&& 127 = x % 128 := by
  have h : (127 : Nat) = 2 ^ 7 - 1 := by norm_num
  have h2 : (128 : Nat) = 2 ^ 7 := by norm_num
  rw [h, h2, Nat.and_pow_two_sub_one_eq_mod]

theorem and128_of_lt {x : Nat} (h : x < 128) : x &&& 128 = 0 := by
  have h2 : (128 : Nat) = 2 ^ 7 := by norm_num
  rw [h2, Nat.and_two_pow, Nat.testBit_lt_two_pow (by omega)]
  rfl

theorem and128_of_ge {y : Nat} (h1 : 128 ≤ y) (h2 : y < 256) : y &&& 128 ≠ 0 := by
  rw [show (128 : Nat) = 2 ^ 7 from by norm_num, Nat.and_two_pow]
  have hq : y / 2 ^ 7 = 1 := by
    norm_num
    omega
  have ht : y.testBit 7 = true := by
    rw [Nat.testBit_to_div_mod, hq]
    rfl
  rw [ht]
  norm_num

theorem and128_of_cont (m : Nat) : (m % 128 + 128) &&& 128 ≠ 0 := by
  have hm : m % 128 < 128 := Nat.mod_lt _ (by norm_num)
  exact and128_of_ge (by omega) (by omega)

theorem byteOf_append_head (pre : List Nat) (x : Nat) (t : List Nat) :
    byteOf (pre ++ x :: t) (pre.length : Int) = x := by
  rw [byteOf, if_neg (by omega : ¬ ((pre.length : Nat) : Int) < 0)]
  rw [Int.toNat_natCast]
  induction pre with
  | nil => rfl
  | cons a pre ih => simpa using ih

theorem accum_low (A x s : Nat) (hA : A < 2 ^ s) (hx : x < 128) (hs : s ≤ 21) :
    (A % 2 ^ 32 ||| (x <<< s) % 2 ^ 32, A / 2 ^ 32) =
      ((A + x * 2 ^ s) % 2 ^ 32, (A + x * 2 ^ s) / 2 ^ 32) := by
  have hpow : (2 : Nat) ^ s ≤ 2 ^ 21 := Nat.pow_le_pow_right (by norm_num) hs
  have hA32 : A < 2 ^ 32 := lt_of_lt_of_le hA (le_trans hpow (by norm_num))
  have hxs : x * 2 ^ s < 2 ^ 32 := by
    calc x * 2 ^ s ≤ 127 * 2 ^ 21 := Nat.mul_le_mul (by omega) hpow
    _ < 2 ^ 32 := by norm_num
  have hsum : A + x * 2 ^ s < 2 ^ 32 := by
    have h1 : A + x * 2 ^ s < 128 * 2 ^ s := by nlinarith
    have h2 : (128 : Nat) * 2 ^ s ≤ 128 * 2 ^ 21 := by nlinarith
    calc A + x * 2 ^ s < 128 * 2 ^ s := h1
    _ ≤ 128 * 2 ^ 21 := h2
    _ ≤ 2 ^ 32 := by norm_num
  rw [Nat.shiftLeft_eq, Nat.mod_eq_of_lt hxs, Nat.mod_eq_of_lt hA32,
    Nat.mod_eq_of_lt hsum, Nat.div_eq_of_lt hA32, Nat.div_eq_of_lt hsum]
  rw [Nat.lor_comm, Nat.mul_comm x, ← Nat.mul_add_lt_is_or hA x]
  rw [Nat.add_comm, Nat.mul_comm]

theorem accum_28 (A x : Nat) (hA : A < 2 ^ 28) :
    (A % 2 ^ 32 ||| (x <<< 28) % 2 ^ 32, A / 2 ^ 32 ||| x >>> 4) =
      ((A + x * 2 ^ 28) % 2 ^ 32, (A + x * 2 ^ 28) / 2 ^ 32) := by
  have hA32 : A < 2 ^ 32 := by omega
  have hx16 : x % 16 < 16 := Nat.mod_lt _ (by norm_num)
  have hdecomp : x * 2 ^ 28 = x % 16 * 2 ^ 28 + x / 16 * 2 ^ 32 := by
    have h16 : x = 16 * (x / 16) + x % 16 := (Nat.div_add_mod x 16).symm
    calc x * 2 ^ 28 = (16 * (x / 16) + x % 16) * 2 ^ 28 := by rw [← h16]
    _ = x % 16 * 2 ^ 28 + x / 16 * (16 * 2 ^ 28) := by ring
    _ = x % 16 * 2 ^ 28 + x / 16 * 2 ^ 32 := by norm_num
  have hlow : A + x % 16 * 2 ^ 28 < 2 ^ 32 := by nlinarith
  have hxmod : (x * 2 ^ 28) % 2 ^ 32 = x % 16 * 2 ^ 28 := by
    rw [hdecomp, Nat.add_mul_mod_self_right]
    exact Nat.mod_eq_of_lt (by nlinarith)
  have hshift : x >>> 4 = x / 16 := by
    rw [Nat.shiftRight_eq_div_pow]
  have hor : A ||| x % 16 * 2 ^ 28 = A + x % 16 * 2 ^ 28 := by
    rw [Nat.lor_comm, Nat.mul_comm (x % 16), ← Nat.mul_add_lt_is_or hA (x % 16)]
    rw [Nat.add_comm, Nat.mul_comm]
  have hfull : A + x * 2 ^ 28 = A + x % 16 * 2 ^ 28 + x / 16 * 2 ^ 32 := by
    rw [hdecomp]; ring
  have hrhs1 : (A + x * 2 ^ 28) % 2 ^ 32 = A + x % 16 * 2 ^ 28 := by
    rw [hfull, Nat.add_mul_mod_self_right, Nat.mod_eq_of_lt hlow]
  have hrhs2 : (A + x * 2 ^ 28) / 2 ^ 32 = x / 16 := by
    rw [hfull, Nat.add_mul_div_right _ _ (show 0 < 2 ^ 32 by norm_num),
      Nat.div_eq_of_lt hlow, Nat.zero_add]
  rw [Nat.shiftLeft_eq, hxmod, Nat.mod_eq_of_lt hA32, Nat.div_eq_of_lt hA32, hshift,
    hrhs1, hrhs2, hor]
  simp

theorem accum_high (A x s : Nat) (hA : A < 2 ^ s) (hx : x < 128) (h35 : 35 ≤ s)
    (h49 : s ≤ 49) :
    (A % 2 ^ 32, A / 2 ^ 32 ||| (x <<< (s - 32)) % 2 ^ 32) =
      ((A + x * 2 ^ s) % 2 ^ 32, (A + x * 2 ^ s) / 2 ^ 32) := by
  have hsplit : (2 : Nat) ^ s = 2 ^ (s - 32) * 2 ^ 32 := by
    rw [← Nat.pow_add]
    congr 1
    omega
  have hshift : x * 2 ^ (s - 32) < 2 ^ 32 := by
    have h1 : (2 : Nat) ^ (s - 32) ≤ 2 ^ 17 := Nat.pow_le_pow_right (by norm_num) (by omega)
    calc x * 2 ^ (s - 32) ≤ 127 * 2 ^ 17 := Nat.mul_le_mul (by omega) h1
    _ < 2 ^ 32 := by norm_num
  have hxs : x * 2 ^ s = x * 2 ^ (s - 32) * 2 ^ 32 := by rw [hsplit]; ring
  have hAdiv : A / 2 ^ 32 < 2 ^ (s - 32) := by
    rw [Nat.div_lt_iff_lt_mul (by norm_num : 0 < 2 ^ 32)]
    calc A < 2 ^ s := hA
    _ = 2 ^ (s - 32) * 2 ^ 32 := hsplit
  have hrhs1 : (A + x * 2 ^ s) % 2 ^ 32 = A % 2 ^ 32 := by
    rw [hxs, Nat.add_mul_mod_self_right]
  have hrhs2 : (A + x * 2 ^ s) / 2 ^ 32 = A / 2 ^ 32 + x * 2 ^ (s - 32) := by
    rw [hxs, Nat.add_mul_div_right _ _ (show 0 < 2 ^ 32 by norm_num)]
  have hor : A / 2 ^ 32 ||| x * 2 ^ (s - 32) = A / 2 ^ 32 + x * 2 ^ (s - 32) := by
    rw [Nat.lor_comm, Nat.mul_comm x, ← Nat.mul_add_lt_is_or hAdiv x]
    rw [Nat.add_comm, Nat.mul_comm]
  rw [Nat.shiftLeft_eq, Nat.mod_eq_of_lt hshift, hrhs1, hrhs2, hor]

theorem varintAccum_spec (A s b : Nat) (hA : A < 2 ^ s) (hs7 : s % 7 = 0) (hs : s ≤ 49) :
    varintAccum (A % 2 ^ 32) (A / 2 ^ 32) s b =
      ((A + (b &&& 127) * 2 ^ s) % 2 ^ 32, (A + (b &&& 127) * 2 ^ s) / 2 ^ 32) := by
  have hx : b &&& 127 < 128 := lt_of_le_of_lt Nat.and_le_right (by norm_num)
  rw [varintAccum]
  rcases Nat.lt_or_ge s 28 with hlt | hge
  · have hs21 : s ≤ 21 := by omega
    rw [if_pos (by omega : s < 32), if_pos hlt]
    exact accum_low A (b &&& 127) s hA hx hs21
  · rcases Nat.lt_or_ge s 32 with hlt2 | hge2
    · have h28 : s = 28 := by omega
      subst h28
      rw [if_pos (by norm_num : (28 : Nat) < 32), if_neg (by norm_num : ¬ (28 : Nat) < 28),
        if_pos (by norm_num : (28 : Nat) < 32)]
      have h4 : (32 : Nat) - 28 = 4 := by norm_num
      rw [h4]
      exact accum_28 A (b &&& 127) hA
    · have h35 : 35 ≤ s := by omega
      rw [if_neg (by omega : ¬ s < 32), if_neg (by omega : ¬ s < 28),
        if_neg (by omega : ¬ s < 32)]
      exact accum_high A (b &&& 127) s hA hx h35 hs

theorem encodeVarintAux_lt : ∀ (fuel n : Nat), ∀ x ∈ encodeVarintAux fuel n, x < 256 := by
  intro fuel
  induction fuel with
  | zero =>
    intro n x hx
    rw [encodeVarintAux] at hx
    simp at hx
    omega
  | succ f ih =>
    intro n x hx
    rw [encodeVarintAux] at hx
    by_cases hn : n < 128
    · rw [if_pos hn] at hx
      simp at hx
      omega
    · rw [if_neg hn] at hx
      simp at hx
      rcases hx with hx | hx
      · omega
      · exact ih (n / 128) x hx

theorem varintLoop_encode : ∀ (i : Nat), ∀ (m A s fuelE : Nat) (pre : List Nat),
    1 ≤ i → m < 2 ^ (7 * i) → m < 2 ^ (7 * fuelE) →
    s % 7 = 0 → s ≤ 49 → A < 2 ^ s → A + m * 2 ^ s ≤ 2 ^ 53 →
    varintLoop i { b := pre ++ encodeVarintAux fuelE m, p := (pre.length : Int) }
        (A % 2 ^ 32) (A / 2 ^ 32) s =
      .ok ((A + m * 2 ^ s) % 2 ^ 32, (A + m * 2 ^ s) / 2 ^ 32,
        { b := pre ++ encodeVarintAux fuelE m,
          p := (pre.length : Int) + ((encodeVarintAux fuelE m).length : Int) }) := by
  intro i
  induction i with
  | zero =>
    intro m A s fuelE pre h1
    omega
  | succ i ih =>
    intro m A s fuelE pre h1 hmi hmf hs7 hs49 hA hsum
    by_cases hm : m < 128
    · have henc : encodeVarintAux fuelE m = [m] := by
        cases fuelE with
        | zero => rw [encodeVarintAux, Nat.mod_eq_of_lt hm]
        | succ f => rw [encodeVarintAux, if_pos hm]
      rw [henc]
      rw [varintLoop]
      rw [if_neg (by
        show ¬ (((pre ++ [m]).length : Int) ≤ (pre.length : Int))
        simp)]
      simp only []
      rw [byteOf_append_head]
      rw [varintAccum_spec A s m hA hs7 hs49]
      rw [and127_eq_mod, Nat.mod_eq_of_lt hm]
      rw [if_pos (and128_of_lt hm)]
      simp
    · have hfpos : fuelE ≠ 0 := by
        intro h0
        subst h0
        norm_num at hmf
        omega
      obtain ⟨f, rfl⟩ : ∃ f, fuelE = f + 1 := ⟨fuelE - 1, by omega⟩
      have henc : encodeVarintAux (f + 1) m = (m % 128 + 128) :: encodeVarintAux f (m / 128) := by
        rw [encodeVarintAux, if_neg hm]
      rw [henc]
      rw [varintLoop]
      rw [if_neg (by
        show ¬ (((pre ++ (m % 128 + 128) :: encodeVarintAux f (m / 128)).length : Int) ≤
          (pre.length : Int))
        simp)]
      simp only []
      rw [byteOf_append_head]
      rw [varintAccum_spec A s (m % 128 + 128) hA hs7 hs49]
      have hmask : (m % 128 + 128) &&& 127 = m % 128 := by
        rw [and127_eq_mod, Nat.add_mod_right]
        omega
      rw [hmask]
      rw [if_neg (and128_of_cont m)]
      -- set up the recursive call
      have hipos : 1 ≤ i := by
        rcases Nat.eq_zero_or_pos i with h0 | h0
        · subst h0
          norm_num at hmi
          omega
        · exact h0
      have hdiv_i : m / 128 < 2 ^ (7 * i) := by
        rw [Nat.div_lt_iff_lt_mul (by norm_num : 0 < 128)]
        have : (2 : Nat) ^ (7 * (i + 1)) = 2 ^ (7 * i) * 128 := by
          rw [show 7 * (i + 1) = 7 * i + 7 by ring, Nat.pow_add]
        omega
      have hdiv_f : m / 128 < 2 ^ (7 * f) := by
        rw [Nat.div_lt_iff_lt_mul (by norm_num : 0 < 128)]
        have : (2 : Nat) ^ (7 * (f + 1)) = 2 ^ (7 * f) * 128 := by
          rw [show 7 * (f + 1) = 7 * f + 7 by ring, Nat.pow_add]
        omega
      have hstep : (2 : Nat) ^ (s + 7) = 2 ^ s * 128 := by
        rw [Nat.pow_add]
      have hsum' : A + m % 128 * 2 ^ s + m / 128 * 2 ^ (s + 7) = A + m * 2 ^ s := by
        rw [hstep]
        have hdm : m % 128 + 128 * (m / 128) = m := Nat.mod_add_div m 128
        calc A + m % 128 * 2 ^ s + m / 128 * (2 ^ s * 128)
            = A + (m % 128 + 128 * (m / 128)) * 2 ^ s := by ring
        _ = A + m * 2 ^ s := by rw [hdm]
      have hA' : A + m % 128 * 2 ^ s < 2 ^ (s + 7) := by
        rw [hstep]
        have : m % 128 < 128 := Nat.mod_lt _ (by norm_num)
        nlinarith
      have hs49' : s + 7 ≤ 49 := by
        have hm1 : 1 ≤ m / 128 := by
          rw [Nat.le_div_iff_mul_le (by norm_num : 0 < 128)]
          omega
        have hb : (2 : Nat) ^ (s + 7) ≤ 2 ^ 53 := by
          calc (2 : Nat) ^ (s + 7) = 1 * 2 ^ (s + 7) := by ring
          _ ≤ m / 128 * 2 ^ (s + 7) := Nat.mul_le_mul_right _ hm1
          _ ≤ A + m % 128 * 2 ^ s + m / 128 * 2 ^ (s + 7) := by omega
          _ = A + m * 2 ^ s := hsum'
          _ ≤ 2 ^ 53 := hsum
        have : s + 7 ≤ 53 := by
          by_contra hcon
          have h54 : 54 ≤ s + 7 := by omega
          have : (2 : Nat) ^ 54 ≤ 2 ^ (s + 7) := Nat.pow_le_pow_right (by norm_num) h54
          have h53 : (2 : Nat) ^ 53 < 2 ^ 54 := by norm_num
          omega
        omega
      have hrec := ih (m / 128) (A + m % 128 * 2 ^ s) (s + 7) f (pre ++ [m % 128 + 128])
        hipos hdiv_i hdiv_f (by omega) hs49' hA' (by omega)
      have hlist : (pre ++ [m % 128 + 128]) ++ encodeVarintAux f (m / 128) =
          pre ++ (m % 128 + 128) :: encodeVarintAux f (m / 128) := by
        simp
      have hplen : ((pre ++ [m % 128 + 128]).length : Int) = (pre.length : Int) + 1 := by
        simp
      rw [hlist, hplen] at hrec
      rw [hsum'] at hrec
      rw [hrec]
      have hlen2 : (pre.length : Int) + 1 + ((encodeVarintAux f (m / 128)).length : Int) =
          (pre.length : Int) + (((m % 128 + 128) :: encodeVarintAux f (m / 128)).length : Int) := by
        simp
        ring
      rw [hlen2]

/-- Correctness of `roundDouble` on small values: exact up to `2 ^ 53`. -/
theorem roundDouble_of_le (n : Nat) (h : n ≤ 2 ^ 53) : roundDouble (n : Int) = (n : Int) := by
  rw [roundDouble, if_pos (by omega : (0 : Int) ≤ (n : Int))]
  rw [Int.toNat_natCast]
  rw [roundNat53, if_pos h]

/-- C2, amended: for every unsigned integer `n ≤ 2 ^ 53`, decoding the varint
encoding of `n` with `varint()` returns exactly `n` and consumes exactly the
encoding — this covers all the multi-byte boundary cases 127, 128, 16383,
16384, `2 ^ 32 − 1` and `2 ^ 53`.  The internal low/high 32-bit split is
exact up to 64 bits, but the value returned is the result of one
double-precision addition, so above `2 ^ 53` the round-trip can lose
precision (see the counterexample at `2 ^ 53 + 1`), and the claim's "up to
2^63 without precision loss" does not hold of the returned number. -/
theorem C2_varint_roundtrip (n : Nat) (h : n ≤ 2 ^ 53) :
    PBReader.varint (mkReader (encodeVarint n)) =
      .ok ((n : Int), { b := encodeVarint n, p := ((encodeVarint n).length : Int) }) := by
  have hmk : mkReader (encodeVarint n) = { b := encodeVarint n, p := 0 } := by
    have hmap := map_mod_of_lt (fun x hx => encodeVarintAux_lt 10 n x hx)
    rw [mkReader, show encodeVarint n = encodeVarintAux 10 n from rfl, hmap]
  have hloop := varintLoop_encode 10 n 0 0 10 [] (by norm_num)
    (by calc n ≤ 2 ^ 53 := h
        _ < 2 ^ (7 * 10) := by norm_num)
    (by calc n ≤ 2 ^ 53 := h
        _ < 2 ^ (7 * 10) := by norm_num)
    (by norm_num) (by norm_num) (by norm_num) (by simpa using h)
  simp only [List.nil_append, List.length_nil, Nat.cast_zero, Nat.zero_mod,
    Nat.zero_div, Nat.zero_add, pow_zero, Nat.mul_one, Int.zero_add] at hloop
  rw [hmk, PBReader.varint]
  rw [show ({ b := encodeVarint n, p := 0 } : PBReader) =
    { b := encodeVarintAux 10 n, p := (0 : Int) } from rfl]
  rw [hloop]
  rw [exc_map_ok]
  have hdivlt : n / 2 ^ 32 < 2 ^ 31 := by
    have h1 : n / 2 ^ 32 ≤ 2 ^ 53 / 2 ^ 32 := Nat.div_le_div_right h
    have h2 : (2 : Nat) ^ 53 / 2 ^ 32 = 2 ^ 21 := by norm_num
    have h3 : (2 : Nat) ^ 21 < 2 ^ 31 := by norm_num
    omega
  have hpat : int32OfPattern (n / 2 ^ 32) = ((n / 2 ^ 32 : Nat) : Int) := by
    rw [int32OfPattern,
      if_pos (show n / 2 ^ 32 % 2 ^ 32 < 2 ^ 31 by
        rw [Nat.mod_eq_of_lt (show n / 2 ^ 32 < 2 ^ 32 by omega)]
        exact hdivlt)]
    exact Int.emod_eq_of_lt (Int.natCast_nonneg _)
      (by exact_mod_cast (show n / 2 ^ 32 < 2 ^ 32 by omega))
  rw [hpat]
  have hval : ((n % 2 ^ 32 : Nat) : Int) + ((n / 2 ^ 32 : Nat) : Int) * 4294967296 =
      (n : Int) := by
    have hid : (n % 2 ^ 32) + (n / 2 ^ 32) * 2 ^ 32 = n := by
      have := Nat.mod_add_div n (2 ^ 32)
      omega
    push_cast
    rw [show (4294967296 : Int) = 2 ^ 32 by norm_num]
    exact_mod_cast hid
  rw [hval, roundDouble_of_le n h]
  rfl

/-- Witness for C2: the amended round-trip theorem applied at every boundary
case the specification lists. -/
theorem C2_witness :
    PBReader.varint (mkReader (encodeVarint 127)) =
      .ok ((127 : Int), { b := encodeVarint 127, p := ((encodeVarint 127).length : Int) }) ∧
    PBReader.varint (mkReader (encodeVarint 128)) =
      .ok ((128 : Int), { b := encodeVarint 128, p := ((encodeVarint 128).length : Int) }) ∧
    PBReader.varint (mkReader (encodeVarint 16383)) =
      .ok ((16383 : Int), { b := encodeVarint 16383, p := ((encodeVarint 16383).length : Int) }) ∧
    PBReader.varint (mkReader (encodeVarint 16384)) =
      .ok ((16384 : Int), { b := encodeVarint 16384, p := ((encodeVarint 16384).length : Int) }) ∧
    PBReader.varint (mkReader (encodeVarint (2 ^ 32 - 1))) =
      .ok (((2 ^ 32 - 1 : Nat) : Int),
        { b := encodeVarint (2 ^ 32 - 1), p := ((encodeVarint (2 ^ 32 - 1)).length : Int) }) ∧
    PBReader.varint (mkReader (encodeVarint (2 ^ 53))) =
      .ok (((2 ^ 53 : Nat) : Int),
        { b := encodeVarint (2 ^ 53), p := ((encodeVarint (2 ^ 53)).length : Int) }) := by
  exact ⟨C2_varint_roundtrip 127 (by norm_num), C2_varint_roundtrip 128 (by norm_num),
    C2_varint_roundtrip 16383 (by norm_num), C2_varint_roundtrip 16384 (by norm_num),
    C2_varint_roundtrip (2 ^ 32 - 1) (by norm_num), C2_varint_roundtrip (2 ^ 53) (by norm_num)⟩

theorem countErr_append_ent (acc : List EntitySlot) (e : FeedEntity) :
    countErr (acc ++ [.ent e]) = countErr acc := by
  rw [countErr, countErr, List.filter_append]
  simp [EntitySlot.isErr]

theorem countErr_append_err (acc : List EntitySlot) (m : String) :
    countErr (acc ++ [.parseError m]) = countErr acc + 1 := by
  rw [countErr, countErr, List.filter_append]
  simp [EntitySlot.isErr]

theorem feedLoop_count (F : Nat) : ∀ (fuel : Nat) (h : FeedHeader) (acc : List EntitySlot)
    (cnt : Nat) (r : PBReader) (res : FeedHeader × List EntitySlot × Nat),
    feedLoop F fuel h acc cnt r = .ok res → cnt = countErr acc →
    res.2.2 = countErr res.2.1 := by
  intro fuel
  induction fuel with
  | zero =>
    intro h acc cnt r res heq _
    rw [feedLoop] at heq
    cases heq
  | succ fuel ih =>
    intro h acc cnt r res heq hcnt
    rw [feedLoop] at heq
    split at heq
    · cases heq
      simpa using hcnt
    · cases htag : r.tag with
      | error e => rw [htag] at heq; cases heq
      | ok x =>
        obtain ⟨⟨f, w⟩, r₁⟩ := x
        rw [htag, exc_bind_ok] at heq
        simp only [] at heq
        split at heq
        · cases hsub : r₁.sub with
          | error e => rw [hsub] at heq; cases heq
          | ok y =>
            obtain ⟨hr, r₂⟩ := y
            rw [hsub, exc_bind_ok] at heq
            simp only [] at heq
            cases hh : parseFeedHeaderLoop F h hr with
            | error e => rw [hh] at heq; cases heq
            | ok h' =>
              rw [hh, exc_bind_ok] at heq
              exact ih _ _ _ _ _ heq hcnt
        · split at heq
          · cases hby : r₁.bytes with
            | error e => rw [hby] at heq; cases heq
            | ok y =>
              obtain ⟨bs, r₂⟩ := y
              rw [hby, exc_bind_ok] at heq
              simp only [] at heq
              cases hfe : parseFeedEntity F (mkReader bs) with
              | ok e =>
                rw [hfe] at heq
                exact ih _ _ _ _ _ heq (by rw [countErr_append_ent]; exact hcnt)
              | error err =>
                cases err with
                | msg m =>
                  rw [hfe] at heq
                  exact ih _ _ _ _ _ heq (by rw [countErr_append_err]; omega)
                | fuel =>
                  rw [hfe] at heq
                  cases heq
          · cases hsk : r₁.skip w with
            | error e => rw [hsk] at heq; cases heq
            | ok r₂ =>
              rw [hsk, exc_bind_ok] at heq
              exact ih _ _ _ _ _ heq hcnt

/-- C10: on every successful decode, the `_entityErrors` field is present if
and only if at least one entity slot is a parse-error marker, and when
present it equals the number of parse-error markers in the entity sequence;
an all-clean decode carries no counter field at all rather than a counter of
zero. -/
theorem C10_entity_error_counter (F : Nat) (buf : List Nat) (feed : FeedMessage)
    (h : parseFeedMessage F buf = .ok feed) :
    (feed.entityErrors = none ↔ countErr feed.entity = 0) ∧
    (∀ k, feed.entityErrors = some k → k = countErr feed.entity ∧ 0 < k) := by
  rw [parseFeedMessage] at h
  cases hl : feedLoop F F {} [] 0 (mkReader buf) with
  | error e => rw [hl] at h; cases h
  | ok res =>
    rw [hl, exc_map_ok] at h
    cases h
    have hc := feedLoop_count F F {} [] 0 (mkReader buf) res hl (by rfl)
    by_cases hpos : 0 < res.2.2
    · constructor
      · simp only [if_pos hpos]
        constructor
        · intro hco
          cases hco
        · intro hco
          omega
      · intro k hk
        simp only [if_pos hpos] at hk
        cases hk
        exact ⟨hc, hpos⟩
    · constructor
      · simp only [if_neg hpos]
        constructor
        · intro _
          omega
        · intro _
          trivial
      · intro k hk
        simp only [if_neg hpos] at hk
        cases hk

/-- Witness for C10: the counter invariant instantiated on the concrete feed
with one good and one truncated entity, whose decode carries `_entityErrors
= some 1`: the theorem yields that the counter value 1 equals the number of
parse-error markers. -/
theorem C10_witness :
    (1 : Nat) = countErr [EntitySlot.ent { id := some [0x61] },
      EntitySlot.parseError "bytes: need 2 but only 1 left at byte 2"] ∧
    0 < (1 : Nat) := by
  have h := C10_entity_error_counter 32
    [0x12, 0x03, 0x0A, 0x01, 0x61, 0x12, 0x03, 0x0A, 0x02, 0x61]
    { header := {},
      entity := [.ent { id := some [0x61] },
        .parseError "bytes: need 2 but only 1 left at byte 2"],
      entityErrors := some 1 }
    (by decide)
  exact h.2 1 rfl

theorem parseFeedHeaderLoop_indep : ∀ (fuel : Nat) (o o' : FeedHeader) (hr : PBReader),
    (parseFeedHeaderLoop fuel o hr).map (fun _ => ()) =
      (parseFeedHeaderLoop fuel o' hr).map (fun _ => ()) := by
  intro fuel
  induction fuel with
  | zero => intro o o' hr; rfl
  | succ fuel ih =>
    intro o o' hr
    rw [parseFeedHeaderLoop, parseFeedHeaderLoop]
    by_cases hd : hr.done
    · rw [if_pos hd, if_pos hd]
      rfl
    · rw [if_neg hd, if_neg hd]
      cases htag : hr.tag with
      | error e => rfl
      | ok x =>
        obtain ⟨⟨f, w⟩, hr₁⟩ := x
        rw [exc_bind_ok, exc_bind_ok]
        simp only []
        by_cases h1 : f = 1
        · rw [if_pos h1, if_pos h1]
          cases hri : readIf hr₁ w 2 PBReader.str with
          | error e => rfl
          | ok y =>
            obtain ⟨v, hr₂⟩ := y
            rw [exc_bind_ok, exc_bind_ok]
            exact ih _ _ _
        · rw [if_neg h1, if_neg h1]
          by_cases h2 : f = 2
          · rw [if_pos h2, if_pos h2]
            cases hri : readIf hr₁ w 0 PBReader.varint with
            | error e => rfl
            | ok y =>
              obtain ⟨v, hr₂⟩ := y
              rw [exc_bind_ok, exc_bind_ok]
              exact ih _ _ _
          · rw [if_neg h2, if_neg h2]
            by_cases h3 : f = 3
            · rw [if_pos h3, if_pos h3]
              cases hri : readIf hr₁ w 0 PBReader.varint with
              | error e => rfl
              | ok y =>
                obtain ⟨v, hr₂⟩ := y
                rw [exc_bind_ok, exc_bind_ok]
                exact ih _ _ _
            · rw [if_neg h3, if_neg h3]
              cases hsk : hr₁.skip w with
              | error e => rfl
              | ok hr₂ =>
                rw [exc_bind_ok, exc_bind_ok]
                exact ih _ _ _

theorem topWalkLoop_prefix (F : Nat) : ∀ (fuel : Nat) (accW : List (List Nat)) (r : PBReader)
    (rs : List (List Nat)), topWalkLoop F fuel accW r = .ok rs → ∃ ds, rs = accW ++ ds := by
  intro fuel
  induction fuel with
  | zero =>
    intro accW r rs heq
    rw [topWalkLoop] at heq
    cases heq
  | succ fuel ih =>
    intro accW r rs heq
    rw [topWalkLoop] at heq
    by_cases hd : r.done
    · rw [if_pos hd] at heq
      cases heq
      exact ⟨[], by simp⟩
    · rw [if_neg hd] at heq
      cases htag : r.tag with
      | error e => rw [htag] at heq; cases heq
      | ok x =>
        obtain ⟨⟨f, w⟩, r₁⟩ := x
        rw [htag, exc_bind_ok] at heq
        simp only [] at heq
        by_cases hc1 : f = 1 ∧ w = 2
        · rw [if_pos hc1] at heq
          cases hsub : r₁.sub with
          | error e => rw [hsub] at heq; cases heq
          | ok y =>
            obtain ⟨hr, r₂⟩ := y
            rw [hsub, exc_bind_ok] at heq
            simp only [] at heq
            cases hhw : parseFeedHeaderLoop F {} hr with
            | error e => rw [hhw] at heq; cases heq
            | ok u =>
              rw [hhw, exc_bind_ok] at heq
              exact ih accW r₂ rs heq
        · rw [if_neg hc1] at heq
          by_cases hc2 : f = 2 ∧ w = 2
          · rw [if_pos hc2] at heq
            cases hby : r₁.bytes with
            | error e => rw [hby] at heq; cases heq
            | ok y =>
              obtain ⟨bs, r₂⟩ := y
              rw [hby, exc_bind_ok] at heq
              simp only [] at heq
              obtain ⟨ds, hds⟩ := ih (accW ++ [bs]) r₂ rs heq
              exact ⟨bs :: ds, by simp [hds]⟩
          · rw [if_neg hc2] at heq
            cases hsk : r₁.skip w with
            | error e => rw [hsk] at heq; cases heq
            | ok r₂ =>
              rw [hsk, exc_bind_ok] at heq
              exact ih accW r₂ rs heq

theorem feedLoop_lockstep (F : Nat) : ∀ (fuel : Nat) (r : PBReader)
    (accW ds : List (List Nat)),
    topWalkLoop F fuel accW r = .ok (accW ++ ds) →
    (∀ bs ∈ ds, parseFeedEntity F (mkReader bs) ≠ .error .fuel) →
    ∀ (h : FeedHeader) (acc : List EntitySlot) (cnt : Nat),
    ∃ h' cnt', feedLoop F fuel h acc cnt r =
      .ok (h', acc ++ ds.map (decodeSlot F), cnt') := by
  intro fuel
  induction fuel with
  | zero =>
    intro r accW ds heq
    rw [topWalkLoop] at heq
    cases heq
  | succ fuel ih =>
    intro r accW ds heq hfe h acc cnt
    rw [topWalkLoop] at heq
    rw [feedLoop]
    by_cases hd : r.done
    · rw [if_pos hd] at heq
      rw [if_pos hd]
      have hds : ds = [] := by
        injection heq with h2
        have h3 : accW ++ [] = accW ++ ds := by simpa using h2
        exact (List.append_cancel_left h3).symm
      subst hds
      exact ⟨h, cnt, by simp⟩
    · rw [if_neg hd] at heq
      rw [if_neg hd]
      cases htag : r.tag with
      | error e => rw [htag] at heq; cases heq
      | ok x =>
        obtain ⟨⟨f, w⟩, r₁⟩ := x
        rw [htag, exc_bind_ok] at heq
        rw [exc_bind_ok]
        simp only [] at heq ⊢
        by_cases hc1 : f = 1 ∧ w = 2
        · rw [if_pos hc1] at heq
          rw [if_pos hc1]
          cases hsub : r₁.sub with
          | error e => rw [hsub] at heq; cases heq
          | ok y =>
            obtain ⟨hr, r₂⟩ := y
            rw [hsub, exc_bind_ok] at heq
            rw [exc_bind_ok]
            simp only [] at heq ⊢
            cases hhw : parseFeedHeaderLoop F {} hr with
            | error e => rw [hhw] at heq; cases heq
            | ok u =>
              rw [hhw, exc_bind_ok] at heq
              obtain ⟨h₂, hh₂⟩ : ∃ h₂, parseFeedHeaderLoop F h hr = .ok h₂ := by
                have hind := parseFeedHeaderLoop_indep F {} h hr
                rw [hhw] at hind
                cases hcase : parseFeedHeaderLoop F h hr with
                | error e => rw [hcase] at hind; cases hind
                | ok v => exact ⟨v, rfl⟩
              rw [hh₂, exc_bind_ok]
              exact ih r₂ accW ds heq hfe h₂ acc cnt
        · rw [if_neg hc1] at heq
          rw [if_neg hc1]
          by_cases hc2 : f = 2 ∧ w = 2
          · rw [if_pos hc2] at heq
            rw [if_pos hc2]
            cases hby : r₁.bytes with
            | error e => rw [hby] at heq; cases heq
            | ok y =>
              obtain ⟨bs, r₂⟩ := y
              rw [hby, exc_bind_ok] at heq
              rw [exc_bind_ok]
              simp only [] at heq ⊢
              obtain ⟨ds', hds'⟩ := topWalkLoop_prefix F fuel (accW ++ [bs]) r₂ _ heq
              have hds : ds = bs :: ds' := by
                rw [List.append_assoc] at hds'
                have := List.append_cancel_left hds'
                simpa using this
              subst hds
              have heq' : topWalkLoop F fuel (accW ++ [bs]) r₂ = .ok ((accW ++ [bs]) ++ ds') := by
                rw [heq]
                simp
              have hfe' : ∀ bs' ∈ ds', parseFeedEntity F (mkReader bs') ≠ .error .fuel :=
                fun bs' hb => hfe bs' (by simp [hb])
              cases hpe : parseFeedEntity F (mkReader bs) with
              | ok e =>
                obtain ⟨h', cnt', hrec⟩ := ih r₂ (accW ++ [bs]) ds' heq' hfe' h
                  (acc ++ [.ent e]) cnt
                refine ⟨h', cnt', ?_⟩
                simp only []
                rw [hrec]
                have hslot : decodeSlot F bs = .ent e := by
                  rw [decodeSlot, hpe]
                simp [hslot]
              | error err =>
                cases err with
                | msg m =>
                  obtain ⟨h', cnt', hrec⟩ := ih r₂ (accW ++ [bs]) ds' heq' hfe' h
                    (acc ++ [.parseError m]) (cnt + 1)
                  refine ⟨h', cnt', ?_⟩
                  simp only []
                  rw [hrec]
                  have hslot : decodeSlot F bs = .parseError m := by
                    rw [decodeSlot, hpe]
                  simp [hslot]
                | fuel => exact absurd hpe (hfe bs (by simp))
          · rw [if_neg hc2] at heq
            rw [if_neg hc2]
            cases hsk : r₁.skip w with
            | error e => rw [hsk] at heq; cases heq
            | ok r₂ =>
              rw [hsk, exc_bind_ok] at heq
              rw [exc_bind_ok]
              exact ih r₂ accW ds heq hfe h acc cnt

/-- C1: entity isolation.  For every feed buffer whose top-level framing is
well-formed (the framing walk `topWalk` succeeds, collecting the isolated
byte range of each entity field in arrival order), `parseFeedMessage`
succeeds and its entity sequence is exactly the framing walk's ranges mapped
through `decodeSlot`: one slot per entity, in arrival order, each decoding
failure replaced by a parse-error marker carrying the thrown diagnostic
message while every other entity decodes normally, and the feed-level error
counter equal to the number of failed entities (attached only when
positive) — a failed entity never aborts the decode. -/
theorem C1_entity_isolation (F : Nat) (buf : List Nat) (rs : List (List Nat))
    (hw : topWalk F buf = .ok rs)
    (hfe : ∀ bs ∈ rs, parseFeedEntity F (mkReader bs) ≠ .error .fuel) :
    ∃ feed, parseFeedMessage F buf = .ok feed ∧
      feed.entity = rs.map (decodeSlot F) ∧
      feed.entity.length = rs.length ∧
      feed.entityErrors =
        (if 0 < countErr (rs.map (decodeSlot F)) then
          some (countErr (rs.map (decodeSlot F))) else none) := by
  rw [topWalk] at hw
  have hw' : topWalkLoop F F [] (mkReader buf) = .ok ([] ++ rs) := by simpa using hw
  obtain ⟨h', cnt', hrun⟩ := feedLoop_lockstep F F (mkReader buf) [] rs hw' hfe {} [] 0
  have hcnt := feedLoop_count F F {} [] 0 (mkReader buf) _ hrun rfl
  simp only [List.nil_append] at hrun hcnt
  refine ⟨{ header := h', entity := rs.map (decodeSlot F),
            entityErrors := if 0 < cnt' then some cnt' else none }, ?_, rfl, by simp, ?_⟩
  · rw [parseFeedMessage, hrun, exc_map_ok]
  · simp only []
    rw [hcnt]

/-- Witness for C1: a concrete feed of two entities whose second entity is
truncated mid-field decodes — via the isolation theorem — to two slots in
order, the first decoded normally, the second a parse-error marker, with
error counter 1. -/
theorem C1_witness :
    (parseFeedMessage 32 [0x12, 0x03, 0x0A, 0x01, 0x61, 0x12, 0x03, 0x0A, 0x02, 0x61]).map
        (fun fd => (fd.entity, fd.entityErrors)) =
      .ok ([[0x0A, 0x01, 0x61], [0x0A, 0x02, 0x61]].map (decodeSlot 32), some 1) := by
  obtain ⟨feed, h1, h2, h3, h4⟩ := C1_entity_isolation 32
    [0x12, 0x03, 0x0A, 0x01, 0x61, 0x12, 0x03, 0x0A, 0x02, 0x61]
    [[0x0A, 0x01, 0x61], [0x0A, 0x02, 0x61]] (by decide) (by decide)
  rw [h1, exc_map_ok, h2, h4]
  have hc : countErr ([[0x0A, 0x01, 0x61], [0x0A, 0x02, 0x61]].map (decodeSlot 32)) = 1 := by
    decide
  rw [hc]
  rfl

end GeoTransport
